import Mathlib

/-!
Verification of the express-ts-zod-openapi library: a shallow embedding of
`src/openapi.ts` (Zod-to-OpenAPI schema conversion, path rewriting, document
generation) and `src/router.ts` (TypedRouter, request/response validation
wrapper), together with theorems settling the specification claims.

JavaScript runtime values produced by the library are modelled by the `Json`
inductive (with an explicit `undef` for the JavaScript `undefined`); plain
JavaScript objects are modelled as insertion-ordered association lists and
property assignment as replace-or-append (`setKey`). Zod schemas - external
library values the code introspects via `_def.typeName`, `_def.description`
and the monkey-patched `_openApi.name` - are modelled by the `Zod` inductive,
one constructor per `typeName` the source dispatches on, each carrying the
introspected metadata.
-/

/-- A JavaScript runtime value, including `undefined`. Objects are
insertion-ordered association lists, as JavaScript objects are for the
string keys this library uses. -/
inductive Json where
  | undef : Json
  | null : Json
  | bool : Bool → Json
  | num : Int → Json
  | str : String → Json
  | arr : List Json → Json
  | obj : List (String × Json) → Json

/-- First-match lookup in an association list with String keys: reading a
property of a JavaScript object (keys are unique by construction). -/
def listLookup (k : String) : List (String × Json) → Option Json
  | [] => none
  | (k2, v) :: rest => if k2 = k then some v else listLookup k rest

/-- JavaScript property assignment on an object modelled as an association
list: replace the value in place if the key exists, else append. -/
def setKey (k : String) (v : Json) : List (String × Json) → List (String × Json)
  | [] => [(k, v)]
  | (k2, v2) :: rest => if k2 = k then (k2, v) :: rest else (k2, v2) :: setKey k v rest

/-- Property assignment `j[k] = v` on a `Json` value (no-op on non-objects;
in the source the target is always an object). -/
def jsSet (j : Json) (k : String) (v : Json) : Json :=
  match j with
  | Json.obj entries => Json.obj (setKey k v entries)
  | other => other

/-- Read property `k` of a `Json` object. -/
def jsGet (j : Json) (k : String) : Option Json :=
  match j with
  | Json.obj entries => listLookup k entries
  | _ => none

/-- The metadata the source introspects on a Zod schema object:
`_openApi.name` (set by `withSchemaName`) and `_def.description`
(set by `.describe()`). -/
structure SchemaMeta where
  name : Option String := none
  descr : Option String := none

/-- A Zod schema value, one constructor per `_def.typeName` that
`src/openapi.ts` dispatches on. `zunsupported` stands for every other
`typeName` (ZodDate, ZodTuple, ZodRecord, ...), which the converter's
`default` branch handles uniformly. `zdefault` carries the default value
(used by `parse`, ignored by the converter). -/
inductive Zod where
  | zstr : SchemaMeta → Zod
  | znum : SchemaMeta → Zod
  | zbool : SchemaMeta → Zod
  | zarray : SchemaMeta → Zod → Zod
  | zobject : SchemaMeta → List (String × Zod) → Zod
  | zunion : SchemaMeta → List Zod → Zod
  | zliteral : SchemaMeta → Json → Zod
  | zenum : SchemaMeta → List String → Zod
  | znativeEnum : SchemaMeta → List Json → Zod
  | zoptional : SchemaMeta → Zod → Zod
  | znullable : SchemaMeta → Zod → Zod
  | zdefault : SchemaMeta → Zod → Json → Zod
  | zeffects : SchemaMeta → Zod → Zod
  | zunsupported : SchemaMeta → String → Zod

/-- The metadata attached to a schema node. -/
def Zod.metaOf : Zod → SchemaMeta
  | Zod.zstr m => m
  | Zod.znum m => m
  | Zod.zbool m => m
  | Zod.zarray m _ => m
  | Zod.zobject m _ => m
  | Zod.zunion m _ => m
  | Zod.zliteral m _ => m
  | Zod.zenum m _ => m
  | Zod.znativeEnum m _ => m
  | Zod.zoptional m _ => m
  | Zod.znullable m _ => m
  | Zod.zdefault m _ _ => m
  | Zod.zeffects m _ => m
  | Zod.zunsupported m _ => m

/-- Replace the metadata of a schema node. -/
def Zod.withMeta (m : SchemaMeta) : Zod → Zod
  | Zod.zstr _ => Zod.zstr m
  | Zod.znum _ => Zod.znum m
  | Zod.zbool _ => Zod.zbool m
  | Zod.zarray _ e => Zod.zarray m e
  | Zod.zobject _ fs => Zod.zobject m fs
  | Zod.zunion _ os => Zod.zunion m os
  | Zod.zliteral _ v => Zod.zliteral m v
  | Zod.zenum _ vs => Zod.zenum m vs
  | Zod.znativeEnum _ vs => Zod.znativeEnum m vs
  | Zod.zoptional _ i => Zod.zoptional m i
  | Zod.znullable _ i => Zod.znullable m i
  | Zod.zdefault _ i d => Zod.zdefault m i d
  | Zod.zeffects _ i => Zod.zeffects m i
  | Zod.zunsupported _ t => Zod.zunsupported m t

/-- `withSchemaName` from `src/openapi.ts`: spreads the existing `_openApi`
object and overwrites its `name` field on the given schema object. -/
def withSchemaName (schema : Zod) (name : String) : Zod :=
  schema.withMeta { schema.metaOf with name := some name }

/-- JavaScript `if (!x) x = y` on an optional string: `x` is kept only when
it is truthy (present and nonempty). -/
def jsOr (a b : Option String) : Option String :=
  match a with
  | some s => if s = "" then b else some s
  | none => b

/-- Truthiness of an optional string (`""` and absence are falsy). -/
def truthyS : Option String → Option String
  | some s => if s = "" then none else some s
  | none => none

/-- Result of `unwrapZodType`. -/
structure Unwrapped where
  schema : Zod
  isNullable : Bool
  isOptional : Bool
  description : Option String
  openApiName : Option String

/-- The `while` loop of `unwrapZodType`: step through
Optional/Nullable/Default/Effects wrappers, accumulating nullability,
optionality, and the first truthy description/name encountered. -/
def unwrapGo : Zod → Bool → Bool → Option String → Option String → Unwrapped
  | Zod.zoptional _ inner, nl, _, d, nm =>
      unwrapGo inner nl true (jsOr d inner.metaOf.descr) (jsOr nm inner.metaOf.name)
  | Zod.znullable _ inner, _, op, d, nm =>
      unwrapGo inner true op (jsOr d inner.metaOf.descr) (jsOr nm inner.metaOf.name)
  | Zod.zdefault _ inner _, nl, op, d, nm =>
      unwrapGo inner nl op (jsOr d inner.metaOf.descr) (jsOr nm inner.metaOf.name)
  | Zod.zeffects _ inner, nl, op, d, nm =>
      unwrapGo inner nl op (jsOr d inner.metaOf.descr) (jsOr nm inner.metaOf.name)
  | s, nl, op, d, nm => ⟨s, nl, op, d, nm⟩

/-- `unwrapZodType` from `src/openapi.ts`. -/
def unwrapZodType (s : Zod) : Unwrapped :=
  unwrapGo s false false s.metaOf.descr s.metaOf.name

/-- Whether a node is one of the wrappers the unwrapping loop steps through. -/
def isWrapper : Zod → Bool
  | Zod.zoptional _ _ => true
  | Zod.znullable _ _ => true
  | Zod.zdefault _ _ _ => true
  | Zod.zeffects _ _ => true
  | _ => false

/-- `if (description) result.description = description` (truthy check). -/
def applyDescr (d : Option String) (j : Json) : Json :=
  match d with
  | some s => if s = "" then j else jsSet j "description" (Json.str s)
  | none => j

/-- `if (isNullable) result.nullable = true`. -/
def applyNullable (b : Bool) (j : Json) : Json :=
  if b then jsSet j "nullable" (Json.bool true) else j

/-- The component table `context.components.schemas`. -/
abbrev Ctx := List (String × Json)

/-- The `ZodObject` field loop of `zodToOpenApiSchema`, parameterised by the
conversion used for each (already unwrapped) field schema: produces the
`properties` entries, the `required` key list, and the threaded context. -/
def convFields (conv1 : Zod → Option Ctx → Option (Json × Option Ctx)) :
    List (String × Zod) → Option Ctx → Option (List (String × Json) × List String × Option Ctx)
  | [], ctx => some ([], [], ctx)
  | (k, v) :: rest, ctx =>
    let uv := unwrapZodType v
    match conv1 uv.schema ctx with
    | none => none
    | some (pj, ctx1) =>
      let pj2 := applyNullable uv.isNullable (applyDescr uv.description pj)
      match convFields conv1 rest ctx1 with
      | none => none
      | some (props, req, ctx2) =>
        some ((k, pj2) :: props, (if uv.isOptional then req else k :: req), ctx2)

/-- The `ZodUnion` option loop of `zodToOpenApiSchema`, parameterised by the
conversion used for each option. -/
def convOpts (conv1 : Zod → Option Ctx → Option (Json × Option Ctx)) :
    List Zod → Option Ctx → Option (List Json × Option Ctx)
  | [], ctx => some ([], ctx)
  | o :: rest, ctx =>
    match conv1 o ctx with
    | none => none
    | some (j, ctx1) =>
      match convOpts conv1 rest ctx1 with
      | none => none
      | some (js, ctx2) => some (j :: js, ctx2)

mutual
/-- Size of a schema tree (every node and list cell counts), used as the
fuel bound for the conversion and to state its termination. -/
def zsize : Zod → Nat
  | Zod.zstr _ => 1
  | Zod.znum _ => 1
  | Zod.zbool _ => 1
  | Zod.zarray _ e => 1 + zsize e
  | Zod.zobject _ fs => 1 + zsizeFields fs
  | Zod.zunion _ os => 1 + zsizeList os
  | Zod.zliteral _ _ => 1
  | Zod.zenum _ _ => 1
  | Zod.znativeEnum _ _ => 1
  | Zod.zoptional _ i => 1 + zsize i
  | Zod.znullable _ i => 1 + zsize i
  | Zod.zdefault _ i _ => 1 + zsize i
  | Zod.zeffects _ i => 1 + zsize i
  | Zod.zunsupported _ _ => 1

/-- Size of an object field list. -/
def zsizeFields : List (String × Zod) → Nat
  | [] => 1
  | (_, v) :: rest => 1 + zsize v + zsizeFields rest

/-- Size of a union option list. -/
def zsizeList : List Zod → Nat
  | [] => 1
  | v :: rest => 1 + zsize v + zsizeList rest
end

/-- Whether a `Json` value is a string or a number
(the `typeof v === ... ` filter of the `ZodNativeEnum` case). -/
def isStrOrNum : Json → Bool
  | Json.str _ => true
  | Json.num _ => true
  | _ => false

/-- The `switch (def?.typeName)` of `zodToOpenApiSchema`, on the unwrapped
schema, parameterised by the recursive conversion used for sub-schemas
(which the source calls with the context and without `asComponent`);
the trailing description/nullable assignments of the source are applied
to every branch's result. -/
def convSwitch (recur : Zod → Option Ctx → Option (Json × Option Ctx))
    (u : Unwrapped) (ctx : Option Ctx) : Option (Json × Option Ctx) :=
  match u.schema with
  | Zod.zstr _ =>
    some (applyNullable u.isNullable (applyDescr u.description
      (Json.obj [("type", Json.str "string")])), ctx)
  | Zod.znum _ =>
    some (applyNullable u.isNullable (applyDescr u.description
      (Json.obj [("type", Json.str "number")])), ctx)
  | Zod.zbool _ =>
    some (applyNullable u.isNullable (applyDescr u.description
      (Json.obj [("type", Json.str "boolean")])), ctx)
  | Zod.zarray _ elem =>
    match recur elem ctx with
    | none => none
    | some (itemJson, ctx1) =>
      some (applyNullable u.isNullable (applyDescr u.description
        (Json.obj [("type", Json.str "array"), ("items", itemJson)])), ctx1)
  | Zod.zobject _ fields =>
    match convFields recur fields ctx with
    | none => none
    | some (props, required, ctx1) =>
      some (applyNullable u.isNullable (applyDescr u.description
        (Json.obj ([("type", Json.str "object"), ("properties", Json.obj props)] ++
          (if required.isEmpty then [] else [("required", Json.arr (required.map Json.str))])))),
        ctx1)
  | Zod.zunion _ options =>
    match convOpts recur options ctx with
    | none => none
    | some (js, ctx1) =>
      some (applyNullable u.isNullable (applyDescr u.description
        (Json.obj [("oneOf", Json.arr js)])), ctx1)
  | Zod.zliteral _ v =>
    some (applyNullable u.isNullable (applyDescr u.description
      (Json.obj [("enum", Json.arr [v])])), ctx)
  | Zod.zenum _ values =>
    some (applyNullable u.isNullable (applyDescr u.description
      (Json.obj [("type", Json.str "string"),
                 ("enum", Json.arr (values.map Json.str))])), ctx)
  | Zod.znativeEnum _ values =>
    let enumValues := values.filter isStrOrNum
    let ty : String :=
      match enumValues with
      | Json.num _ :: _ => "number"
      | _ => "string"
    some (applyNullable u.isNullable (applyDescr u.description
      (Json.obj [("type", Json.str ty), ("enum", Json.arr enumValues)])), ctx)
  | _ =>
    -- unsupported kinds (and unreachable wrapper kinds): empty fragment
    some (applyNullable u.isNullable (applyDescr u.description (Json.obj [])), ctx)

/-- `zodToOpenApiSchema` from `src/openapi.ts`, with explicit fuel (the
source function is generally recursive; the fuel argument makes the
recursion structural, and the termination theorem below shows
`2 * zsize s + 2` fuel always suffices, i.e. the source recursion
terminates). Arguments mirror the source: the schema, the optional context
holding the shared component table, and the `asComponent` flag. -/
def convF : Nat → Zod → Option Ctx → Bool → Option (Json × Option Ctx)
  | 0, _, _, _ => none
  | n + 1, s, ctx, asComp =>
    let u := unwrapZodType s
    match ctx, truthyS u.openApiName, asComp with
    | some c, some nm, false =>
      -- register as component (first conversion of the name) and emit a $ref
      let reg : Option Ctx :=
        if (listLookup nm c).isSome then some c
        else
          match convF n s (some c) true with
          | none => none
          | some (compJson, ctx1) =>
            -- the JavaScript assignment runs after the recursive call and
            -- overwrites whatever that call left under the name
            match ctx1 with
            | some c1 => some (setKey nm compJson c1)
            | none => some (setKey nm compJson c)
      match reg with
      | none => none
      | some c2 =>
        some (applyNullable u.isNullable (applyDescr u.description
          (Json.obj [("$ref", Json.str (String.append "#/components/schemas/" nm))])),
          some c2)
    | _, _, _ => convSwitch (fun t c => convF n t c false) u ctx

/-- `zodToOpenApiSchema`: the fuel instantiated with the sufficient bound. -/
def zodToOpenApiSchema (s : Zod) (ctx : Option Ctx) (asComp : Bool) :
    Option (Json × Option Ctx) :=
  convF (2 * zsize s + 2) s ctx asComp

/-! ## The validation library's parse-or-fail operation

The router consumes Zod's `schema.parse(value)` (throw on mismatch). The
schemas themselves are external library values; their parse operation is
modelled here executably, following Zod's documented behaviour on the
constructors of `Zod`. The router theorems only depend on parse succeeding
or failing, never on the details of this model. -/

/-- Structural Boolean equality of `Json` values, with fuel. -/
def jbeqF : Nat → Json → Json → Bool
  | 0, _, _ => false
  | n + 1, a, b =>
    match a, b with
    | Json.undef, Json.undef => true
    | Json.null, Json.null => true
    | Json.bool x, Json.bool y => x == y
    | Json.num x, Json.num y => x == y
    | Json.str x, Json.str y => x == y
    | Json.arr xs, Json.arr ys =>
      xs.length == ys.length && (xs.zip ys).all (fun p => jbeqF n p.1 p.2)
    | Json.obj xs, Json.obj ys =>
      xs.length == ys.length &&
        (xs.zip ys).all (fun p => p.1.1 == p.2.1 && jbeqF n p.1.2 p.2.2)
    | _, _ => false

mutual
/-- Size of a `Json` value, fuel bound for `jbeq`. -/
def jsize : Json → Nat
  | Json.arr xs => 1 + jsizeList xs
  | Json.obj xs => 1 + jsizeEntries xs
  | _ => 1

/-- Size of a `Json` array's element list. -/
def jsizeList : List Json → Nat
  | [] => 1
  | v :: rest => 1 + jsize v + jsizeList rest

/-- Size of a `Json` object's entry list. -/
def jsizeEntries : List (String × Json) → Nat
  | [] => 1
  | (_, v) :: rest => 1 + jsize v + jsizeEntries rest
end

/-- Structural equality of `Json` values (JavaScript deep equality as used
to model literal comparison). -/
def jbeq (a b : Json) : Bool :=
  jbeqF (jsize a + 1) a b

/-- Parse a list of values elementwise. -/
def parseList (p : Json → Except String Json) : List Json → Except String (List Json)
  | [] => Except.ok []
  | v :: rest =>
    match p v with
    | Except.error e => Except.error e
    | Except.ok v2 =>
      match parseList p rest with
      | Except.error e => Except.error e
      | Except.ok vs => Except.ok (v2 :: vs)

/-- Parse the declared fields of an object value (unknown keys stripped,
missing keys seen as `undefined`). -/
def parseObjFields (p : Zod → Json → Except String Json)
    (entries : List (String × Json)) :
    List (String × Zod) → Except String (List (String × Json))
  | [] => Except.ok []
  | (k, fsch) :: rest =>
    match p fsch ((listLookup k entries).getD Json.undef) with
    | Except.error e => Except.error e
    | Except.ok pv =>
      match parseObjFields p entries rest with
      | Except.error e => Except.error e
      | Except.ok pvs => Except.ok ((k, pv) :: pvs)

/-- Try union options in order, keeping the first success. -/
def parseFirst (p : Zod → Json → Except String Json) (v : Json) :
    List Zod → Except String Json
  | [] => Except.error "no union option matched"
  | o :: rest =>
    match p o v with
    | Except.ok r => Except.ok r
    | Except.error _ => parseFirst p v rest

/-- Zod `parse`, modelled with fuel (one unit per schema layer). -/
def zparseF : Nat → Zod → Json → Except String Json
  | 0, _, _ => Except.error "schema too deep"
  | n + 1, s, v =>
    match s with
    | Zod.zstr _ =>
      match v with
      | Json.str _ => Except.ok v
      | _ => Except.error "expected string"
    | Zod.znum _ =>
      match v with
      | Json.num _ => Except.ok v
      | _ => Except.error "expected number"
    | Zod.zbool _ =>
      match v with
      | Json.bool _ => Except.ok v
      | _ => Except.error "expected boolean"
    | Zod.zarray _ elem =>
      match v with
      | Json.arr items => (parseList (zparseF n elem) items).map Json.arr
      | _ => Except.error "expected array"
    | Zod.zobject _ fields =>
      match v with
      | Json.obj entries => (parseObjFields (zparseF n) entries fields).map Json.obj
      | _ => Except.error "expected object"
    | Zod.zunion _ options => parseFirst (zparseF n) v options
    | Zod.zliteral _ lv =>
      if jbeq v lv then Except.ok v else Except.error "literal mismatch"
    | Zod.zenum _ values =>
      match v with
      | Json.str sv => if values.contains sv then Except.ok v
                       else Except.error "not an enum member"
      | _ => Except.error "expected string enum member"
    | Zod.znativeEnum _ values =>
      if values.any (fun w => jbeq v w) then Except.ok v
      else Except.error "not a native enum member"
    | Zod.zoptional _ inner =>
      match v with
      | Json.undef => Except.ok Json.undef
      | _ => zparseF n inner v
    | Zod.znullable _ inner =>
      match v with
      | Json.null => Except.ok Json.null
      | _ => zparseF n inner v
    | Zod.zdefault _ inner dflt =>
      match v with
      | Json.undef => zparseF n inner dflt
      | _ => zparseF n inner v
    | Zod.zeffects _ inner => zparseF n inner v
    | Zod.zunsupported _ _ => Except.ok v

/-- `schema.parse(value)`: throw (`Except.error`) or return the parsed value. -/
def zparse (s : Zod) (v : Json) : Except String Json :=
  zparseF (zsize s + 1) s v

/-! ## The router (`src/router.ts`) -/

/-- The HTTP methods `TypedRouter` supports. -/
inductive HttpMethod where
  | get | post | put | patch | delete
deriving DecidableEq

/-- The Express path key used when registering: `'get'`, `'post'`, ... -/
def HttpMethod.toKey : HttpMethod → String
  | HttpMethod.get => "get"
  | HttpMethod.post => "post"
  | HttpMethod.put => "put"
  | HttpMethod.patch => "patch"
  | HttpMethod.delete => "delete"

/-- `RequestSchemas`: optional per-field input schemas. -/
structure RequestSchemas where
  params : Option Zod := none
  query : Option Zod := none
  body : Option Zod := none
  headers : Option Zod := none

/-- `ResponseSchemas`: mapping from status code to output schema. A
JavaScript `Record<number, ZodTypeAny>` cannot hold duplicate keys and
iterates integer-like keys in ascending order; theorems that depend on
the key order carry that well-formedness as a hypothesis. -/
abbrev ResponseSchemas := List (Nat × Zod)

/-- Optional route metadata. -/
structure RouteMeta where
  summary : Option String := none
  description : Option String := none
  tags : Option (List String) := none

/-- The raw values an Express request exposes. -/
structure ReqVals where
  params : Json
  query : Json
  body : Json
  headers : Json

/-- The Express response object: its current status code and the log of
`res.json` writes (each with the status in force when written). -/
structure Res where
  statusCode : Nat
  writes : List (Nat × Json)

/-- `res.status(st).json(body)`. -/
def resSend (r : Res) (st : Nat) (body : Json) : Res :=
  { statusCode := st, writes := r.writes ++ [(st, body)] }

/-- The validated values handed to the handler. -/
structure Parsed where
  params : Json
  query : Json
  body : Json
  headers : Json

/-- A user handler: receives the request, the validated values and the
response object; may mutate the response (returned `Res`) and either
throws (`Except.error`) or returns a value (possibly `undefined`). -/
abbrev Handler := ReqVals → Parsed → Res → Res × Except String Json

/-- `RouteDefinition`. -/
structure RouteDef where
  method : HttpMethod
  path : String
  request : Option RequestSchemas := none
  responses : ResponseSchemas
  meta : Option RouteMeta := none
  handler : Handler

/-- How the wrapper ended: response sent (`next` not called), `next()`
(no result and no schema), or `next(err)` (a validation or handler error
forwarded to the framework's error path). -/
inductive NextCall where
  | notCalled
  | nextUnit
  | nextErr (e : String)
deriving DecidableEq

/-- One input stage: parse against the schema when declared, otherwise
pass the raw value through. -/
def parseStage (sch : Option Zod) (raw : Json) : Except String Json :=
  match sch with
  | some s => zparse s raw
  | none => Except.ok raw

/-- The `parsed` object construction of the wrapper: params, query, body,
headers in order; the first failure throws. -/
def parseInputs (request : Option RequestSchemas) (req : ReqVals) :
    Except String Parsed :=
  match request with
  | none => Except.ok ⟨req.params, req.query, req.body, req.headers⟩
  | some rs =>
    match parseStage rs.params req.params with
    | Except.error e => Except.error e
    | Except.ok p =>
      match parseStage rs.query req.query with
      | Except.error e => Except.error e
      | Except.ok q =>
        match parseStage rs.body req.body with
        | Except.error e => Except.error e
        | Except.ok b =>
          match parseStage rs.headers req.headers with
          | Except.error e => Except.error e
          | Except.ok h => Except.ok ⟨p, q, b, h⟩

/-- `first2xxSchema` from `src/router.ts`: the status codes, filtered to
[200, 300), sorted ascending; the schema of the first, if any. -/
def first2xxSchema (responses : ResponseSchemas) : Option Zod :=
  let statusCodes := ((responses.map Prod.fst).filter
    (fun n => 200 ≤ n && n < 300)).mergeSort (fun a b => a ≤ b)
  match statusCodes with
  | [] => none
  | first :: _ => responses.lookup first

/-- The status the wrapper validates and sends with: the handler's status
code when it lies in [200, 300), else 200. -/
def eventualStatus (r : Res) : Nat :=
  if 200 ≤ r.statusCode ∧ r.statusCode < 300 then r.statusCode else 200

/-- `responses[status] ?? first2xxSchema(responses) ?? responses[200]`. -/
def selectResponseSchema (responses : ResponseSchemas) (status : Nat) : Option Zod :=
  match responses.lookup status with
  | some s => some s
  | none =>
    match first2xxSchema responses with
    | some s => some s
    | none => responses.lookup 200

/-- The `wrapped` handler that `TypedRouter.register` installs for a route:
parse the inputs (any failure goes to `next(err)`), call the handler
(thrown errors go to `next(err)`), validate the return value against the
selected response schema and send it, or forward the validation error. -/
def runWrapped (rt : RouteDef) (req : ReqVals) (res0 : Res) : Res × NextCall :=
  match parseInputs rt.request req with
  | Except.error e => (res0, NextCall.nextErr e)
  | Except.ok parsed =>
    match rt.handler req parsed res0 with
    | (res1, Except.error e) => (res1, NextCall.nextErr e)
    | (res1, Except.ok result) =>
      let status := eventualStatus res1
      match selectResponseSchema rt.responses status with
      | some schema =>
        match zparse schema result with
        | Except.error e => (res1, NextCall.nextErr e)
        | Except.ok parsedResult => (resSend res1 status parsedResult, NextCall.notCalled)
      | none =>
        match result with
        | Json.undef => (res1, NextCall.nextUnit)
        | _ => (resSend res1 status result, NextCall.notCalled)

/-! ## TypedRouter state -/

/-- `TypedRouter`: an ordered sequence of registered route definitions. -/
structure TypedRouter where
  routes : List RouteDef

/-- The options object of the verb shorthands. -/
structure RouteOptions where
  request : Option RequestSchemas := none
  responses : ResponseSchemas
  meta : Option RouteMeta := none
  handler : Handler

/-- `TypedRouter.route`: push one definition at the end. -/
def TypedRouter.route (r : TypedRouter) (d : RouteDef) : TypedRouter :=
  ⟨r.routes ++ [d]⟩

/-- Build the definition `{ method, path, ...options }`. -/
def mkRouteDef (m : HttpMethod) (path : String) (o : RouteOptions) : RouteDef :=
  ⟨m, path, o.request, o.responses, o.meta, o.handler⟩

/-- `TypedRouter.get`. -/
def TypedRouter.get (r : TypedRouter) (path : String) (o : RouteOptions) : TypedRouter :=
  r.route (mkRouteDef HttpMethod.get path o)

/-- `TypedRouter.post`. -/
def TypedRouter.post (r : TypedRouter) (path : String) (o : RouteOptions) : TypedRouter :=
  r.route (mkRouteDef HttpMethod.post path o)

/-- `TypedRouter.put`. -/
def TypedRouter.put (r : TypedRouter) (path : String) (o : RouteOptions) : TypedRouter :=
  r.route (mkRouteDef HttpMethod.put path o)

/-- `TypedRouter.patch`. -/
def TypedRouter.patch (r : TypedRouter) (path : String) (o : RouteOptions) : TypedRouter :=
  r.route (mkRouteDef HttpMethod.patch path o)

/-- `TypedRouter.delete`. -/
def TypedRouter.delete (r : TypedRouter) (path : String) (o : RouteOptions) : TypedRouter :=
  r.route (mkRouteDef HttpMethod.delete path o)

/-- `TypedRouter.getRoutes`: a copy of the route sequence in registration
order (the JavaScript `[...this.routes]`; in this value semantics a copy is
the list itself, so mutation of the returned array cannot reach the
router's state by construction). -/
def TypedRouter.getRoutes (r : TypedRouter) : List RouteDef :=
  r.routes

/-- `TypedRouter.register`: reads the route sequence and installs one
wrapped handler per route on the Express app; the router is not changed. -/
def TypedRouter.register (r : TypedRouter) :
    List (HttpMethod × String × (ReqVals → Res → Res × NextCall)) :=
  r.routes.map (fun rt => (rt.method, rt.path, fun req res => runWrapped rt req res))

/-- The mutating operations of the router, as data (used to state the
append-only invariant over every mutator uniformly). -/
inductive RouterOp where
  | route (d : RouteDef)
  | get (path : String) (o : RouteOptions)
  | post (path : String) (o : RouteOptions)
  | put (path : String) (o : RouteOptions)
  | patch (path : String) (o : RouteOptions)
  | delete (path : String) (o : RouteOptions)

/-- Apply a mutating operation. -/
def applyOp (r : TypedRouter) : RouterOp → TypedRouter
  | RouterOp.route d => r.route d
  | RouterOp.get p o => r.get p o
  | RouterOp.post p o => r.post p o
  | RouterOp.put p o => r.put p o
  | RouterOp.patch p o => r.patch p o
  | RouterOp.delete p o => r.delete p o

/-! ## Path rewriting and document generation (`src/openapi.ts`) -/

/-- The character `{` (written numerically throughout). -/
def lbrace : Char := Char.ofNat 123

/-- The character `}`. -/
def rbrace : Char := Char.ofNat 125

/-- The scan of `path.replace(/:([^`/`]+)/g, ...)`: in normal mode a `:`
followed by at least one non-slash character starts a match, which the
bracket mode consumes greedily up to the next `/` or the end, emitting the
brace form. -/
def rewriteGo : Bool → List Char → List Char
  | true, [] => [rbrace]
  | true, c :: rest =>
    if c = '/' then rbrace :: '/' :: rewriteGo false rest
    else c :: rewriteGo true rest
  | false, [] => []
  | false, c :: rest =>
    if c = ':' then
      match rest with
      | [] => [':']
      | d :: _ =>
        if d = '/' then ':' :: rewriteGo false rest
        else lbrace :: rewriteGo true rest
    else c :: rewriteGo false rest

/-- `expressPathToOpenApiPath`: `/users/:id` becomes `/users/{id}`. -/
def expressPathToOpenApiPath (path : String) : String :=
  String.mk (rewriteGo false path.data)

/-- The Express path of a route in the document:
`options.basePath ? basePath + route.path : route.path`. -/
def fullExpressPath (basePath : Option String) (path : String) : String :=
  match basePath with
  | some bp => String.append bp path
  | none => path

/-- Conversion without a context (used for `parameters`): named schemas are
inlined, not referenced. -/
def convNoCtx (s : Zod) : Json :=
  match zodToOpenApiSchema s none false with
  | some (j, _) => j
  | none => Json.obj []

/-- Conversion threading the shared component table (the fallback arms are
unreachable: `convF_isSome` shows the fuel suffices, and a conversion
started with a context returns one). -/
def convCtx (s : Zod) (c : Ctx) : Json × Ctx :=
  match zodToOpenApiSchema s (some c) false with
  | some (j, some c2) => (j, c2)
  | some (j, none) => (j, c)
  | none => (Json.obj [], c)

/-- The parameter objects contributed by one `ZodObject` shape. -/
def paramsOfShape (inLoc : String) (required : Bool) (shape : List (String × Zod)) :
    List Json :=
  shape.map (fun kv => Json.obj [("name", Json.str kv.1), ("in", Json.str inLoc),
    ("required", Json.bool required), ("schema", convNoCtx kv.2)])

/-- `buildParameters`: path params (required), then query, then headers;
`undefined` when empty. Only `ZodObject` schemas contribute. -/
def buildParameters (req : Option RequestSchemas) : Json :=
  let ps :=
    match req with
    | none => []
    | some rs =>
      (match rs.params with
       | some (Zod.zobject _ shape) => paramsOfShape "path" true shape
       | _ => []) ++
      (match rs.query with
       | some (Zod.zobject _ shape) => paramsOfShape "query" false shape
       | _ => []) ++
      (match rs.headers with
       | some (Zod.zobject _ shape) => paramsOfShape "header" false shape
       | _ => [])
  if ps.isEmpty then Json.undef else Json.arr ps

/-- JavaScript `x ?? undefined`-style optional string property value. -/
def optStrJson : Option String → Json
  | some s => Json.str s
  | none => Json.undef

/-- Build the `responses` entries of one operation, threading the component
table; the entry list is already in the ascending key order in which
JavaScript enumerates a `Record<number, _>`. -/
def buildResponsesGo : List (Nat × Zod) → Ctx → List (String × Json) × Ctx
  | [], c => ([], c)
  | (st, sch) :: rest, c =>
    let p := convCtx sch c
    let q := buildResponsesGo rest p.2
    ((toString st, Json.obj [("description", Json.str "Response"),
        ("content", Json.obj [("application/json", Json.obj [("schema", p.1)])])]) :: q.1,
     q.2)

/-- Build one operation object (summary, description, tags, requestBody,
parameters, responses), threading the component table. -/
def buildOperation (rt : RouteDef) (c : Ctx) : Json × Ctx :=
  let rb :=
    match rt.request with
    | some rs =>
      match rs.body with
      | some bs =>
        let p := convCtx bs c
        (Json.obj [("required", Json.bool true),
          ("content", Json.obj [("application/json", Json.obj [("schema", p.1)])])], p.2)
      | none => (Json.undef, c)
    | none => (Json.undef, c)
  let parameters := buildParameters rt.request
  let resp := buildResponsesGo (rt.responses.mergeSort (fun a b => a.1 ≤ b.1)) rb.2
  (Json.obj [
    ("summary", optStrJson (rt.meta.bind RouteMeta.summary)),
    ("description", optStrJson (rt.meta.bind RouteMeta.description)),
    ("tags", match rt.meta.bind RouteMeta.tags with
             | some ts => Json.arr (ts.map Json.str)
             | none => Json.undef),
    ("requestBody", rb.1),
    ("parameters", parameters),
    ("responses", Json.obj resp.1)], resp.2)

/-- The route loop of `buildOpenApi`: for each route, compute the rewritten
path key, take (or create) its path item, and set the method's operation. -/
def buildPaths (basePath : Option String) :
    List RouteDef → List (String × Json) → Ctx → List (String × Json) × Ctx
  | [], paths, c => (paths, c)
  | rt :: rest, paths, c =>
    let p := expressPathToOpenApiPath (fullExpressPath basePath rt.path)
    let item0 := (listLookup p paths).getD (Json.obj [])
    let op := buildOperation rt c
    buildPaths basePath rest (setKey p (jsSet item0 rt.method.toKey op.1) paths) op.2

/-- `OpenApiOptions`. -/
structure OpenApiOptions where
  title : String
  version : String
  basePath : Option String := none
  description : Option String := none

/-- The `info` object of the document. -/
structure OpenApiInfo where
  title : String
  version : String
  description : Option String

/-- `OpenApiDocument`: `{openapi, info, paths, components?}`. -/
structure OpenApiDocument where
  openapi : String
  info : OpenApiInfo
  paths : List (String × Json)
  components : Option Ctx

/-- `buildOpenApi`: assemble the document from the router's routes;
`components` is attached only if any schema was registered. -/
def buildOpenApi (typedRouter : TypedRouter) (options : OpenApiOptions) :
    OpenApiDocument :=
  let pc := buildPaths options.basePath typedRouter.getRoutes [] []
  { openapi := "3.0.0",
    info := ⟨options.title, options.version, options.description⟩,
    paths := pc.1,
    components := if pc.2.isEmpty then none else some pc.2 }

/-! ## Claim-side (specification-worded) definitions, compared against the
source-derived definitions above by the refinement theorems. -/

/-- Claim wording for one slash-free path segment: if the segment contains a
colon with at least one character after it, everything from that colon to
the end of the segment is rewritten to the brace form; otherwise the
segment is unchanged. -/
def specSegment (seg : List Char) : List Char :=
  let a := seg.takeWhile (fun c => c ≠ ':')
  match seg.dropWhile (fun c => c ≠ ':') with
  | [] => seg
  | _ :: b => if b.isEmpty then seg else a ++ lbrace :: (b ++ [rbrace])

/-- Join path segments with `/` separators. -/
def joinSlash : List (List Char) → List Char
  | [] => []
  | [s] => s
  | s :: rest => s ++ '/' :: joinSlash rest

/-- Claim wording for the 2xx default: the schema of the first declared
response entry whose status lies in [200, 300). -/
def specFirst2xx (responses : ResponseSchemas) : Option Zod :=
  match responses.filter (fun p => 200 ≤ p.1 && p.1 < 300) with
  | [] => none
  | p :: _ => some p.2

/-- Some declared input stage of the request fails to parse. -/
def stageFails (rs : RequestSchemas) (req : ReqVals) : Prop :=
  (∃ s e, rs.params = some s ∧ zparse s req.params = Except.error e) ∨
  (∃ s e, rs.query = some s ∧ zparse s req.query = Except.error e) ∨
  (∃ s e, rs.body = some s ∧ zparse s req.body = Except.error e) ∨
  (∃ s e, rs.headers = some s ∧ zparse s req.headers = Except.error e)

/-- The component table's keys are pairwise distinct. -/
def keysNodup (c : Ctx) : Prop :=
  (c.map Prod.fst).Nodup

/-- Number of component entries under a given name. -/
def countKey (k : String) (c : Ctx) : Nat :=
  (c.map Prod.fst).count k

/-- How a conversion is allowed to evolve the component table: a table is
never dropped, entries already present persist with their value (an entry
registered before a conversion starts is never overwritten by it), and
key distinctness is preserved. -/
def CtxEvolves (oc oc2 : Option Ctx) : Prop :=
  ∀ c, oc = some c → ∃ c2, oc2 = some c2 ∧
    (∀ k v, listLookup k c = some v → listLookup k c2 = some v) ∧
    (keysNodup c → keysNodup c2)

/-! ## Helper lemmas -/

theorem applyNullable_false (j : Json) : applyNullable false j = j := rfl

theorem applyDescr_falsy (d : Option String) (j : Json) (h : truthyS d = none) :
    applyDescr d j = j := by
  cases d with
  | none => rfl
  | some s =>
    simp only [truthyS] at h
    split at h
    · simp [applyDescr, *]
    · exact absurd h (by simp)

theorem parseInputs_error_of_stageFails (rs : RequestSchemas) (req : ReqVals)
    (h : stageFails rs req) :
    ∃ e, parseInputs (some rs) req = Except.error e := by
  rcases h with ⟨s, e, hs, hp⟩ | ⟨s, e, hs, hp⟩ | ⟨s, e, hs, hp⟩ | ⟨s, e, hs, hp⟩
  · have hfail : parseStage rs.params req.params = Except.error e := by
      simp [parseStage, hs, hp]
    exact ⟨e, by simp [parseInputs, hfail]⟩
  · have hfail : parseStage rs.query req.query = Except.error e := by
      simp [parseStage, hs, hp]
    cases h1 : parseStage rs.params req.params with
    | error e1 => exact ⟨e1, by simp [parseInputs, h1]⟩
    | ok p => exact ⟨e, by simp [parseInputs, h1, hfail]⟩
  · have hfail : parseStage rs.body req.body = Except.error e := by
      simp [parseStage, hs, hp]
    cases h1 : parseStage rs.params req.params with
    | error e1 => exact ⟨e1, by simp [parseInputs, h1]⟩
    | ok p =>
      cases h2 : parseStage rs.query req.query with
      | error e2 => exact ⟨e2, by simp [parseInputs, h1, h2]⟩
      | ok q => exact ⟨e, by simp [parseInputs, h1, h2, hfail]⟩
  · have hfail : parseStage rs.headers req.headers = Except.error e := by
      simp [parseStage, hs, hp]
    cases h1 : parseStage rs.params req.params with
    | error e1 => exact ⟨e1, by simp [parseInputs, h1]⟩
    | ok p =>
      cases h2 : parseStage rs.query req.query with
      | error e2 => exact ⟨e2, by simp [parseInputs, h1, h2]⟩
      | ok q =>
        cases h3 : parseStage rs.body req.body with
        | error e3 => exact ⟨e3, by simp [parseInputs, h1, h2, h3]⟩
        | ok b => exact ⟨e, by simp [parseInputs, h1, h2, h3, hfail]⟩

/-! ## Claim theorems -/

/-- C8: the router's route sequence is append-only: every mutating
operation (route and the five verb shorthands) appends exactly one
definition at the end, leaves the existing entries unchanged and in order,
and `getRoutes` returns the sequence in registration order (a copy in the
source; under value semantics mutation of the returned list cannot reach
the router). -/
theorem c8_router_append_only :
    (∀ (r : TypedRouter) (op : RouterOp), ∃ d, (applyOp r op).routes = r.routes ++ [d]) ∧
    (∀ (r : TypedRouter) (op : RouterOp),
      (applyOp r op).routes.take r.routes.length = r.routes ∧
      (applyOp r op).routes.length = r.routes.length + 1) ∧
    (∀ r : TypedRouter, r.getRoutes = r.routes) := by
  refine ⟨fun r op => ?_, fun r op => ?_, fun r => rfl⟩
  · cases op <;> exact ⟨_, rfl⟩
  · obtain ⟨d, hd⟩ : ∃ d, (applyOp r op).routes = r.routes ++ [d] := by
      cases op <;> exact ⟨_, rfl⟩
    rw [hd]
    exact ⟨List.take_left r.routes [d], by simp⟩

/-- C5 counterexample: a nullable-wrapped unsupported kind (ZodDate) does
not convert to the empty fragment: the nullable annotation is added, so
the result is `{nullable: true}`, not `{}`. -/
theorem c5_unsupported_counterexample :
    zodToOpenApiSchema (Zod.znullable {} (Zod.zunsupported {} "ZodDate")) none false =
      some (Json.obj [("nullable", Json.bool true)], none) ∧
    Json.obj [("nullable", Json.bool true)] ≠ Json.obj [] :=
  ⟨rfl, by simp⟩

/-- C6: the example object schema `{id: string, age: optional number}`
converts to exactly
`{type: object, properties: {id: {type: string}, age: {type: number}},
required: [id]}`; and in general the field loop lists exactly the
non-optional fields in `required`, one property per declared field, each
converted from its unwrapped field schema. -/
theorem c6_object_conversion :
    (zodToOpenApiSchema (Zod.zobject {} [("id", Zod.zstr {}),
        ("age", Zod.zoptional {} (Zod.znum {}))]) none false =
      some (Json.obj [("type", Json.str "object"),
        ("properties", Json.obj [("id", Json.obj [("type", Json.str "string")]),
          ("age", Json.obj [("type", Json.str "number")])]),
        ("required", Json.arr [Json.str "id"])], none)) ∧
    (∀ (conv1 : Zod → Option Ctx → Option (Json × Option Ctx))
        (fields : List (String × Zod)) (ctx : Option Ctx)
        (props : List (String × Json)) (req : List String) (ctx2 : Option Ctx),
      convFields conv1 fields ctx = some (props, req, ctx2) →
      props.map Prod.fst = fields.map Prod.fst ∧
      req = (fields.filter
        (fun kv => !(unwrapZodType kv.2).isOptional)).map Prod.fst) := by
  refine ⟨rfl, fun conv1 fields => ?_⟩
  induction fields with
  | nil =>
    intro ctx props req ctx2 h
    simp only [convFields, Option.some.injEq, Prod.mk.injEq] at h
    obtain ⟨h1, h2, _⟩ := h
    simp [← h1, ← h2]
  | cons kv rest ih =>
    intro ctx props req ctx2 h
    obtain ⟨k, v⟩ := kv
    simp only [convFields] at h
    split at h
    · exact absurd h (by simp)
    · rename_i pj ctx1 hc
      split at h
      · exact absurd h (by simp)
      · rename_i props2 req2 ctx3 hrest
        simp only [Option.some.injEq, Prod.mk.injEq] at h
        obtain ⟨h1, h2, _⟩ := h
        obtain ⟨ihp, ihr⟩ := ih ctx1 props2 req2 ctx3 hrest
        constructor
        · simp [← h1, ihp]
        · cases hop : (unwrapZodType v).isOptional <;>
            simp [← h2, hop, ihr, List.filter]

/-- C1: when any declared input schema (params, query, body or headers)
rejects the incoming value, the wrapped call forwards an error to
`next(err)` and leaves the response untouched, for every handler alike -
so the user handler is never invoked. -/
theorem c1_input_validation_failure (m : HttpMethod) (path : String)
    (rs : RequestSchemas) (resp : ResponseSchemas) (meta : Option RouteMeta)
    (req : ReqVals) (res0 : Res)
    (hfail : stageFails rs req) :
    ∃ e, ∀ hnd : Handler,
      runWrapped ⟨m, path, some rs, resp, meta, hnd⟩ req res0 =
        (res0, NextCall.nextErr e) := by
  obtain ⟨e, he⟩ := parseInputs_error_of_stageFails rs req hfail
  exact ⟨e, fun hnd => by simp [runWrapped, he]⟩

/-- C1 witness: a route declaring a string body, called with a numeric
body, goes to `next(err)` whatever the handler is. -/
theorem c1_input_validation_failure_witness :
    ∃ e, ∀ hnd : Handler,
      runWrapped ⟨HttpMethod.post, "/users", some { body := some (Zod.zstr {}) },
          [(200, Zod.zstr {})], none, hnd⟩
        ⟨Json.obj [], Json.obj [], Json.num 3, Json.obj []⟩ ⟨200, []⟩ =
      (⟨200, []⟩, NextCall.nextErr e) :=
  c1_input_validation_failure HttpMethod.post "/users"
    { body := some (Zod.zstr {}) } [(200, Zod.zstr {})] none
    ⟨Json.obj [], Json.obj [], Json.num 3, Json.obj []⟩ ⟨200, []⟩
    (Or.inr (Or.inr (Or.inl ⟨Zod.zstr {}, "expected string", rfl, rfl⟩)))

/-- C2: when the handler's return value fails the selected response schema,
the wrapped call forwards the error to `next(err)` and performs no
response write: the final response is exactly the one the handler left,
so the invalid body is never passed to `res.json`. -/
theorem c2_response_validation_failure (m : HttpMethod) (path : String)
    (rq : Option RequestSchemas) (resp : ResponseSchemas) (meta : Option RouteMeta)
    (hnd : Handler) (req : ReqVals) (res0 : Res) (parsed : Parsed) (res1 : Res)
    (result : Json) (sch : Zod) (e : String)
    (hp : parseInputs rq req = Except.ok parsed)
    (hh : hnd req parsed res0 = (res1, Except.ok result))
    (hs : selectResponseSchema resp (eventualStatus res1) = some sch)
    (hf : zparse sch result = Except.error e) :
    runWrapped ⟨m, path, rq, resp, meta, hnd⟩ req res0 = (res1, NextCall.nextErr e) ∧
    (runWrapped ⟨m, path, rq, resp, meta, hnd⟩ req res0).1.writes = res1.writes := by
  have h : runWrapped ⟨m, path, rq, resp, meta, hnd⟩ req res0 =
      (res1, NextCall.nextErr e) := by
    simp [runWrapped, hp, hh, hs, hf]
  exact ⟨h, by rw [h]⟩

/-- C2 witness: a handler returning a number where the 200 schema expects a
string ends in `next(err)` with nothing written. -/
theorem c2_response_validation_failure_witness :
    runWrapped ⟨HttpMethod.get, "/x", none, [(200, Zod.zstr {})], none,
        fun _ _ r => (r, Except.ok (Json.num 7))⟩
      ⟨Json.null, Json.null, Json.null, Json.null⟩ ⟨200, []⟩ =
      (⟨200, []⟩, NextCall.nextErr "expected string") ∧
    (runWrapped ⟨HttpMethod.get, "/x", none, [(200, Zod.zstr {})], none,
        fun _ _ r => (r, Except.ok (Json.num 7))⟩
      ⟨Json.null, Json.null, Json.null, Json.null⟩ ⟨200, []⟩).1.writes = [] :=
  c2_response_validation_failure HttpMethod.get "/x" none [(200, Zod.zstr {})] none
    (fun _ _ r => (r, Except.ok (Json.num 7)))
    ⟨Json.null, Json.null, Json.null, Json.null⟩ ⟨200, []⟩
    ⟨Json.null, Json.null, Json.null, Json.null⟩ ⟨200, []⟩
    (Json.num 7) (Zod.zstr {}) "expected string" rfl rfl rfl rfl

/-- C10: when the handler leaves a status outside [200, 300), the wrapper
clamps the eventual status to 200: the schema is selected for 200 (the 200
entry, else the first 2xx entry - never the schema declared for the
handler's non-2xx status), and on success the response is sent with status
200, overriding the handler's status. -/
theorem c10_non2xx_status_clamped (m : HttpMethod) (path : String)
    (rq : Option RequestSchemas) (resp : ResponseSchemas) (meta : Option RouteMeta)
    (hnd : Handler) (req : ReqVals) (res0 : Res) (parsed : Parsed) (res1 : Res)
    (result : Json)
    (hp : parseInputs rq req = Except.ok parsed)
    (hh : hnd req parsed res0 = (res1, Except.ok result))
    (hst : ¬(200 ≤ res1.statusCode ∧ res1.statusCode < 300)) :
    eventualStatus res1 = 200 ∧
    selectResponseSchema resp (eventualStatus res1) =
      (match resp.lookup 200 with
       | some s => some s
       | none => first2xxSchema resp) ∧
    (∀ sch, selectResponseSchema resp 200 = some sch →
      runWrapped ⟨m, path, rq, resp, meta, hnd⟩ req res0 =
        (match zparse sch result with
         | Except.error e => (res1, NextCall.nextErr e)
         | Except.ok v => (resSend res1 200 v, NextCall.notCalled))) := by
  have hev : eventualStatus res1 = 200 := by simp [eventualStatus, hst]
  refine ⟨hev, ?_, fun sch hsch => ?_⟩
  · rw [hev]
    cases hl : resp.lookup 200 with
    | some s => simp [selectResponseSchema, hl]
    | none =>
      cases h2 : first2xxSchema resp with
      | some s => simp [selectResponseSchema, hl, h2]
      | none => simp [selectResponseSchema, hl, h2]
  · cases hzp : zparse sch result with
    | error e => simp [runWrapped, hp, hh, hev, hsch, hzp]
    | ok v => simp [runWrapped, hp, hh, hev, hsch, hzp]

/-- C10 witness: a handler that set status 404 and returned a string is
validated against the 200 schema (not the declared 404 schema, which would
reject it) and the response goes out with status 200. -/
theorem c10_non2xx_status_clamped_witness :
    eventualStatus ⟨404, []⟩ = 200 ∧
    selectResponseSchema [(200, Zod.zstr {}), (404, Zod.znum {})]
        (eventualStatus ⟨404, []⟩) =
      (match ([(200, Zod.zstr {}), (404, Zod.znum {})] : ResponseSchemas).lookup 200 with
       | some s => some s
       | none => first2xxSchema [(200, Zod.zstr {}), (404, Zod.znum {})]) ∧
    (∀ sch, selectResponseSchema [(200, Zod.zstr {}), (404, Zod.znum {})] 200 = some sch →
      runWrapped ⟨HttpMethod.get, "/x", none, [(200, Zod.zstr {}), (404, Zod.znum {})], none,
          fun _ _ r => (⟨404, r.writes⟩, Except.ok (Json.str "gone"))⟩
        ⟨Json.null, Json.null, Json.null, Json.null⟩ ⟨200, []⟩ =
        (match zparse sch (Json.str "gone") with
         | Except.error e => ((⟨404, []⟩ : Res), NextCall.nextErr e)
         | Except.ok v => (resSend ⟨404, []⟩ 200 v, NextCall.notCalled))) :=
  c10_non2xx_status_clamped HttpMethod.get "/x" none
    [(200, Zod.zstr {}), (404, Zod.znum {})] none
    (fun _ _ r => (⟨404, r.writes⟩, Except.ok (Json.str "gone")))
    ⟨Json.null, Json.null, Json.null, Json.null⟩ ⟨200, []⟩
    ⟨Json.null, Json.null, Json.null, Json.null⟩ ⟨404, []⟩ (Json.str "gone")
    rfl rfl (by decide)

theorem filter_map_fst (l : List (Nat × Zod)) (q : Nat → Bool) :
    (l.map Prod.fst).filter q = (l.filter (fun p => q p.1)).map Prod.fst := by
  induction l with
  | nil => rfl
  | cons p rest ih => cases hq : q p.1 <;> simp [List.filter, hq, ih]

theorem lookup_first_filtered (q : Nat → Bool) (p : Nat × Zod) :
    ∀ (l : List (Nat × Zod)) (rest : List (Nat × Zod)),
      (l.map Prod.fst).Nodup → l.filter (fun x => q x.1) = p :: rest →
      l.lookup p.1 = some p.2 := by
  intro l
  induction l with
  | nil => intro rest _ hf; exact absurd hf (by simp)
  | cons x xs ih =>
    intro rest hnd hf
    rw [List.map_cons] at hnd
    rw [List.filter_cons] at hf
    by_cases hqx : q x.1 = true
    · rw [if_pos hqx] at hf
      obtain ⟨h1, -⟩ := List.cons_eq_cons.mp hf
      subst h1
      simp [List.lookup]
    · rw [if_neg hqx] at hf
      have hpmem : p ∈ xs :=
        List.mem_of_mem_filter (hf ▸ List.mem_cons_self p rest)
      have hkey : p.1 ∈ xs.map Prod.fst := List.mem_map.mpr ⟨p, hpmem, rfl⟩
      have hxnotin : x.1 ∉ xs.map Prod.fst := (List.nodup_cons.mp hnd).1
      have hne : (p.1 == x.1) = false := by
        apply beq_false_of_ne
        intro heq
        exact hxnotin (heq ▸ hkey)
      have hnd2 : (xs.map Prod.fst).Nodup := (List.nodup_cons.mp hnd).2
      simp only [List.lookup, hne]
      exact ih rest hnd2 hf

theorem first2xx_eq_spec (resp : ResponseSchemas)
    (hwf : (resp.map Prod.fst).Pairwise (· < ·)) :
    first2xxSchema resp = specFirst2xx resp := by
  have hnd : (resp.map Prod.fst).Nodup := hwf.imp Nat.ne_of_lt
  have hmap : (resp.map Prod.fst).filter (fun n => 200 ≤ n && n < 300) =
      (resp.filter (fun p => 200 ≤ p.1 && p.1 < 300)).map Prod.fst :=
    filter_map_fst resp _
  have hsorted : ((resp.map Prod.fst).filter
      (fun n => 200 ≤ n && n < 300)).Sorted (· ≤ ·) :=
    (hwf.filter _).imp Nat.le_of_lt
  unfold first2xxSchema specFirst2xx
  rw [List.mergeSort_eq_self hsorted, hmap]
  cases hfp : resp.filter (fun p => 200 ≤ p.1 && p.1 < 300) with
  | nil => simp
  | cons p rest =>
    simp only [List.map_cons]
    exact lookup_first_filtered (fun n => 200 ≤ n && n < 300) p resp rest hnd hfp

/-- C3: the wrapped call validates the handler's return value against the
response schema selected for the eventual (clamped) status: the declared
entry for that status, defaulting to the first declared 2xx entry
(JavaScript enumerates the numeric keys in ascending order, carried here
as the well-formedness hypothesis), else the entry for 200; and on success
the response is sent with precisely that status. -/
theorem c3_response_schema_selection (m : HttpMethod) (path : String)
    (rq : Option RequestSchemas) (resp : ResponseSchemas) (meta : Option RouteMeta)
    (hnd : Handler) (req : ReqVals) (res0 : Res) (parsed : Parsed) (res1 : Res)
    (result : Json)
    (hp : parseInputs rq req = Except.ok parsed)
    (hh : hnd req parsed res0 = (res1, Except.ok result))
    (hwf : (resp.map Prod.fst).Pairwise (· < ·)) :
    (∀ sch, selectResponseSchema resp (eventualStatus res1) = some sch →
      runWrapped ⟨m, path, rq, resp, meta, hnd⟩ req res0 =
        (match zparse sch result with
         | Except.error e => (res1, NextCall.nextErr e)
         | Except.ok v => (resSend res1 (eventualStatus res1) v, NextCall.notCalled))) ∧
    selectResponseSchema resp (eventualStatus res1) =
      (match resp.lookup (eventualStatus res1) with
       | some s => some s
       | none =>
         match specFirst2xx resp with
         | some s => some s
         | none => resp.lookup 200) := by
  constructor
  · intro sch hsch
    cases hzp : zparse sch result with
    | error e => simp [runWrapped, hp, hh, hsch, hzp]
    | ok v => simp [runWrapped, hp, hh, hsch, hzp]
  · unfold selectResponseSchema
    rw [first2xx_eq_spec resp hwf]

/-- C3 witness: with schemas declared for 201 and 404 and a handler ending
at status 200, the 201 schema (the first declared 2xx) is the one in
force; its acceptance of the returned value decides the outcome. -/
theorem c3_response_schema_selection_witness :
    (∀ sch, selectResponseSchema [(201, Zod.znum {}), (404, Zod.zstr {})]
        (eventualStatus ⟨200, []⟩) = some sch →
      runWrapped ⟨HttpMethod.get, "/x", none, [(201, Zod.znum {}), (404, Zod.zstr {})],
          none, fun _ _ r => (r, Except.ok (Json.num 5))⟩
        ⟨Json.null, Json.null, Json.null, Json.null⟩ ⟨200, []⟩ =
        (match zparse sch (Json.num 5) with
         | Except.error e => ((⟨200, []⟩ : Res), NextCall.nextErr e)
         | Except.ok v => (resSend ⟨200, []⟩ (eventualStatus ⟨200, []⟩) v,
             NextCall.notCalled))) ∧
    selectResponseSchema [(201, Zod.znum {}), (404, Zod.zstr {})]
        (eventualStatus ⟨200, []⟩) =
      (match ([(201, Zod.znum {}), (404, Zod.zstr {})] : ResponseSchemas).lookup
          (eventualStatus ⟨200, []⟩) with
       | some s => some s
       | none =>
         match specFirst2xx [(201, Zod.znum {}), (404, Zod.zstr {})] with
         | some s => some s
         | none => ([(201, Zod.znum {}), (404, Zod.zstr {})] : ResponseSchemas).lookup 200) :=
  c3_response_schema_selection HttpMethod.get "/x" none
    [(201, Zod.znum {}), (404, Zod.zstr {})] none
    (fun _ _ r => (r, Except.ok (Json.num 5)))
    ⟨Json.null, Json.null, Json.null, Json.null⟩ ⟨200, []⟩
    ⟨Json.null, Json.null, Json.null, Json.null⟩ ⟨200, []⟩ (Json.num 5)
    rfl rfl (by decide)

theorem zsize_pos (s : Zod) : 1 ≤ zsize s := by
  cases s <;> simp [zsize]

theorem zsizeFields_pos (fs : List (String × Zod)) : 1 ≤ zsizeFields fs := by
  cases fs with
  | nil => simp [zsizeFields]
  | cons kv rest => obtain ⟨k, v⟩ := kv; simp [zsizeFields]; omega

theorem zsizeList_pos (os : List Zod) : 1 ≤ zsizeList os := by
  cases os <;> simp [zsizeList] <;> omega

theorem zsize_mem_fields (kv : String × Zod) :
    ∀ fs : List (String × Zod), kv ∈ fs → zsize kv.2 + 2 ≤ zsizeFields fs := by
  intro fs
  induction fs with
  | nil => intro h; cases h
  | cons x rest ih =>
    intro h
    obtain ⟨k, v⟩ := x
    rcases List.mem_cons.mp h with h1 | h2
    · subst h1
      have := zsizeFields_pos rest
      simp [zsizeFields]
      omega
    · have := ih h2
      have := zsize_pos v
      simp [zsizeFields]
      omega

theorem zsize_mem_list (o : Zod) :
    ∀ os : List Zod, o ∈ os → zsize o + 2 ≤ zsizeList os := by
  intro os
  induction os with
  | nil => intro h; cases h
  | cons x rest ih =>
    intro h
    rcases List.mem_cons.mp h with h1 | h2
    · subst h1
      have := zsizeList_pos rest
      simp [zsizeList]
      omega
    · have := ih h2
      have := zsize_pos x
      simp [zsizeList]
      omega

theorem unwrapGo_zsize_le (s : Zod) (nl op : Bool) (d nm : Option String) :
    zsize (unwrapGo s nl op d nm).schema ≤ zsize s := by
  induction s, nl, op, d, nm using unwrapGo.induct <;>
    simp [unwrapGo, zsize] at * <;> omega

theorem unwrap_zsize_le (s : Zod) : zsize (unwrapZodType s).schema ≤ zsize s :=
  unwrapGo_zsize_le s false false s.metaOf.descr s.metaOf.name

theorem unwrap_zsize_lt (s : Zod) (hw : isWrapper s = true) :
    zsize (unwrapZodType s).schema < zsize s := by
  cases s with
  | zoptional m i =>
    have h := unwrapGo_zsize_le i false true
      (jsOr (Zod.zoptional m i).metaOf.descr i.metaOf.descr)
      (jsOr (Zod.zoptional m i).metaOf.name i.metaOf.name)
    simp only [unwrapZodType, unwrapGo, zsize]
    omega
  | znullable m i =>
    simp only [unwrapZodType, unwrapGo, zsize]
    have h := unwrapGo_zsize_le i true false
      (jsOr (Zod.znullable m i).metaOf.descr i.metaOf.descr)
      (jsOr (Zod.znullable m i).metaOf.name i.metaOf.name)
    omega
  | zdefault m i dv =>
    simp only [unwrapZodType, unwrapGo, zsize]
    have h := unwrapGo_zsize_le i false false
      (jsOr (Zod.zdefault m i dv).metaOf.descr i.metaOf.descr)
      (jsOr (Zod.zdefault m i dv).metaOf.name i.metaOf.name)
    omega
  | zeffects m i =>
    simp only [unwrapZodType, unwrapGo, zsize]
    have h := unwrapGo_zsize_le i false false
      (jsOr (Zod.zeffects m i).metaOf.descr i.metaOf.descr)
      (jsOr (Zod.zeffects m i).metaOf.name i.metaOf.name)
    omega
  | zstr m => simp [isWrapper] at hw
  | znum m => simp [isWrapper] at hw
  | zbool m => simp [isWrapper] at hw
  | zarray m e => simp [isWrapper] at hw
  | zobject m fs => simp [isWrapper] at hw
  | zunion m os => simp [isWrapper] at hw
  | zliteral m v => simp [isWrapper] at hw
  | zenum m vs => simp [isWrapper] at hw
  | znativeEnum m vs => simp [isWrapper] at hw
  | zunsupported m t => simp [isWrapper] at hw

theorem convFields_isSome (conv1 : Zod → Option Ctx → Option (Json × Option Ctx)) :
    ∀ (fs : List (String × Zod)) (ctx : Option Ctx),
      (∀ kv ∈ fs, ∀ c, (conv1 (unwrapZodType kv.2).schema c).isSome = true) →
      (convFields conv1 fs ctx).isSome = true := by
  intro fs
  induction fs with
  | nil => intro ctx _; simp [convFields]
  | cons kv rest ih =>
    intro ctx H
    obtain ⟨k, v⟩ := kv
    have h1 := H (k, v) (List.mem_cons_self _ _) ctx
    simp only [convFields]
    split
    · rename_i hnone
      rw [hnone] at h1
      simp at h1
    · rename_i pj ctx1 hsome
      have h2 := ih ctx1 (fun kv2 hm c => H kv2 (List.mem_cons_of_mem _ hm) c)
      split
      · rename_i hnone2
        rw [hnone2] at h2
        simp at h2
      · simp

theorem convOpts_isSome (conv1 : Zod → Option Ctx → Option (Json × Option Ctx)) :
    ∀ (os : List Zod) (ctx : Option Ctx),
      (∀ o ∈ os, ∀ c, (conv1 o c).isSome = true) →
      (convOpts conv1 os ctx).isSome = true := by
  intro os
  induction os with
  | nil => intro ctx _; simp [convOpts]
  | cons o rest ih =>
    intro ctx H
    have h1 := H o (List.mem_cons_self _ _) ctx
    simp only [convOpts]
    split
    · rename_i hnone
      rw [hnone] at h1
      simp at h1
    · rename_i j ctx1 hsome
      have h2 := ih ctx1 (fun o2 hm c => H o2 (List.mem_cons_of_mem _ hm) c)
      split
      · rename_i hnone2
        rw [hnone2] at h2
        simp at h2
      · simp

theorem convSwitch_isSome (m : Nat) (s : Zod) (ctx2 : Option Ctx)
    (H : ∀ t c b2, 2 * zsize t + (if b2 then 1 else 2) ≤ m →
      (convF m t c b2).isSome = true)
    (hm : 2 * zsize s ≤ m) :
    (convSwitch (fun t c => convF m t c false) (unwrapZodType s) ctx2).isSome = true := by
  have hu : zsize (unwrapZodType s).schema ≤ zsize s := unwrap_zsize_le s
  cases hus : (unwrapZodType s).schema with
  | zstr m0 => simp [convSwitch, hus]
  | znum m0 => simp [convSwitch, hus]
  | zbool m0 => simp [convSwitch, hus]
  | zliteral m0 v => simp [convSwitch, hus]
  | zenum m0 vs => simp [convSwitch, hus]
  | znativeEnum m0 vs => simp [convSwitch, hus]
  | zoptional m0 i => simp [convSwitch, hus]
  | znullable m0 i => simp [convSwitch, hus]
  | zdefault m0 i dv => simp [convSwitch, hus]
  | zeffects m0 i => simp [convSwitch, hus]
  | zunsupported m0 t => simp [convSwitch, hus]
  | zarray m0 elem =>
    rw [hus] at hu
    simp only [zsize] at hu
    have hrec := H elem ctx2 false (by simp; omega)
    simp only [convSwitch, hus]
    split
    · rename_i hnone
      rw [hnone] at hrec
      simp at hrec
    · simp
  | zobject m0 fields =>
    rw [hus] at hu
    simp only [zsize] at hu
    have hrec := convFields_isSome (fun t c => convF m t c false) fields ctx2
      (fun kv hmem c => by
        have h1 := zsize_mem_fields kv fields hmem
        have h2 := unwrap_zsize_le kv.2
        exact H (unwrapZodType kv.2).schema c false (by simp; omega))
    simp only [convSwitch, hus]
    split
    · rename_i hnone
      rw [hnone] at hrec
      simp at hrec
    · simp
  | zunion m0 options =>
    rw [hus] at hu
    simp only [zsize] at hu
    have hrec := convOpts_isSome (fun t c => convF m t c false) options ctx2
      (fun o hmem c => by
        have h1 := zsize_mem_list o options hmem
        exact H o c false (by simp; omega))
    simp only [convSwitch, hus]
    split
    · rename_i hnone
      rw [hnone] at hrec
      simp at hrec
    · simp

theorem convF_isSome : ∀ (n : Nat) (s : Zod) (ctx : Option Ctx) (b : Bool),
    2 * zsize s + (if b then 1 else 2) ≤ n → (convF n s ctx b).isSome = true := by
  intro n
  induction n using Nat.strong_induction_on with
  | _ n IH =>
    intro s ctx b hfuel
    have hz := zsize_pos s
    have hn1 : 1 ≤ n := by cases b <;> simp at hfuel <;> omega
    obtain ⟨m, rfl⟩ : ∃ m, n = m + 1 := ⟨n - 1, by omega⟩
    have hm : 2 * zsize s ≤ m := by cases b <;> simp at hfuel <;> omega
    have hmlt : m < m + 1 := Nat.lt_succ_self m
    have hswitch : ∀ ctx2 : Option Ctx,
        (convSwitch (fun t c => convF m t c false) (unwrapZodType s) ctx2).isSome
          = true :=
      fun ctx2 => convSwitch_isSome m s ctx2
        (fun t c b2 hb => IH m hmlt t c b2 hb) hm
    cases ctx with
    | none =>
      cases b <;> simp only [convF] <;> exact hswitch none
    | some c =>
      cases ht : truthyS (unwrapZodType s).openApiName with
      | none =>
        cases b <;> simp only [convF, ht] <;> exact hswitch (some c)
      | some nm =>
        cases b with
        | true =>
          simp only [convF, ht]
          exact hswitch (some c)
        | false =>
          simp only [convF, ht]
          by_cases hlk : (listLookup nm c).isSome = true
          · rw [if_pos hlk]
            simp
          · have hb2 : 2 * zsize s + 1 ≤ m := by simp at hfuel; omega
            have hrec := IH m hmlt s (some c) true (by simp; omega)
            rw [if_neg hlk]
            obtain ⟨⟨cj, oc1⟩, hcj⟩ := Option.isSome_iff_exists.mp hrec
            rw [hcj]
            cases oc1 <;> simp

/-- C9: conversion terminates on every finite schema value: the unwrapping
loop strictly descends through wrappers (never increasing the size, and
strictly decreasing it on a wrapper), and `2 * zsize s + 2` fuel always
suffices for the conversion to return a result - in particular
`zodToOpenApiSchema`, which runs with that fuel, always returns one. -/
theorem c9_conversion_terminates (s : Zod) (ctx : Option Ctx) (b : Bool) (n : Nat)
    (h : 2 * zsize s + 2 ≤ n) :
    (convF n s ctx b).isSome = true ∧
    (zodToOpenApiSchema s ctx b).isSome = true ∧
    zsize (unwrapZodType s).schema ≤ zsize s ∧
    (isWrapper s = true → zsize (unwrapZodType s).schema < zsize s) :=
  ⟨convF_isSome n s ctx b (by cases b <;> simp <;> omega),
   convF_isSome _ s ctx b (by cases b <;> simp <;> omega),
   unwrap_zsize_le s,
   fun hw => unwrap_zsize_lt s hw⟩

/-- C9 witness: the conversion of a nullable array of strings returns a
result at the stated fuel. -/
theorem c9_conversion_terminates_witness :
    (convF 10 (Zod.znullable {} (Zod.zarray {} (Zod.zstr {}))) none false).isSome = true ∧
    (zodToOpenApiSchema (Zod.znullable {} (Zod.zarray {} (Zod.zstr {}))) none false).isSome
      = true ∧
    zsize (unwrapZodType (Zod.znullable {} (Zod.zarray {} (Zod.zstr {})))).schema ≤
      zsize (Zod.znullable {} (Zod.zarray {} (Zod.zstr {}))) ∧
    (isWrapper (Zod.znullable {} (Zod.zarray {} (Zod.zstr {}))) = true →
      zsize (unwrapZodType (Zod.znullable {} (Zod.zarray {} (Zod.zstr {})))).schema <
        zsize (Zod.znullable {} (Zod.zarray {} (Zod.zstr {})))) :=
  c9_conversion_terminates (Zod.znullable {} (Zod.zarray {} (Zod.zstr {}))) none false 10
    (by decide)

theorem convSwitch_unsupported (recur : Zod → Option Ctx → Option (Json × Option Ctx))
    (s : Zod) (m : SchemaMeta) (tag : String) (ctx2 : Option Ctx)
    (hu : (unwrapZodType s).schema = Zod.zunsupported m tag) :
    convSwitch recur (unwrapZodType s) ctx2 =
      some (applyNullable (unwrapZodType s).isNullable
        (applyDescr (unwrapZodType s).description (Json.obj [])), ctx2) := by
  simp only [convSwitch, hu]

theorem convF_unsupported_asComp (k : Nat) (hk : 1 ≤ k) (s : Zod) (m : SchemaMeta)
    (tag : String) (c : Ctx)
    (hu : (unwrapZodType s).schema = Zod.zunsupported m tag) :
    convF k s (some c) true =
      some (applyNullable (unwrapZodType s).isNullable
        (applyDescr (unwrapZodType s).description (Json.obj [])), some c) := by
  obtain ⟨k2, rfl⟩ : ∃ k2, k = k2 + 1 := ⟨k - 1, by omega⟩
  cases ht : truthyS (unwrapZodType s).openApiName with
  | none =>
    simp only [convF, ht]
    exact convSwitch_unsupported _ s m tag (some c) hu
  | some nm =>
    simp only [convF, ht]
    exact convSwitch_unsupported _ s m tag (some c) hu

theorem convF_unsupported_plain (k : Nat) (s : Zod) (m : SchemaMeta) (tag : String)
    (ctx : Option Ctx) (b : Bool)
    (hu : (unwrapZodType s).schema = Zod.zunsupported m tag)
    (hcond : truthyS (unwrapZodType s).openApiName = none ∨ ctx = none ∨ b = true) :
    convF (k + 1) s ctx b =
      some (applyNullable (unwrapZodType s).isNullable
        (applyDescr (unwrapZodType s).description (Json.obj [])), ctx) := by
  cases ht : truthyS (unwrapZodType s).openApiName with
  | none =>
    cases ctx with
    | none =>
      cases b <;>
        · simp only [convF, ht]
          exact convSwitch_unsupported _ s m tag none hu
    | some c =>
      cases b <;>
        · simp only [convF, ht]
          exact convSwitch_unsupported _ s m tag (some c) hu
  | some nm =>
    cases ctx with
    | none =>
      cases b <;>
        · simp only [convF, ht]
          exact convSwitch_unsupported _ s m tag none hu
    | some c =>
      cases b with
      | true =>
        simp only [convF, ht]
        exact convSwitch_unsupported _ s m tag (some c) hu
      | false =>
        rcases hcond with h | h | h
        · rw [ht] at h
          exact absurd h (by simp)
        · exact absurd h (by simp)
        · exact absurd h (by simp)

theorem convF_unsupported_named (k : Nat) (hk : 1 ≤ k) (s : Zod) (m : SchemaMeta)
    (tag nm : String) (c : Ctx)
    (hu : (unwrapZodType s).schema = Zod.zunsupported m tag)
    (ht : truthyS (unwrapZodType s).openApiName = some nm) :
    convF (k + 1) s (some c) false =
      some (applyNullable (unwrapZodType s).isNullable
        (applyDescr (unwrapZodType s).description
          (Json.obj [("$ref", Json.str (String.append "#/components/schemas/" nm))])),
        some (if (listLookup nm c).isSome = true then c
          else setKey nm (applyNullable (unwrapZodType s).isNullable
            (applyDescr (unwrapZodType s).description (Json.obj []))) c)) := by
  simp only [convF, ht]
  by_cases hlk : (listLookup nm c).isSome = true
  · rw [if_pos hlk, if_pos hlk]
  · rw [if_neg hlk, if_neg hlk, convF_unsupported_asComp k hk s m tag c hu]

/-- C5 amended: for every schema whose unwrapped kind is unsupported the
conversion does not fail: the returned fragment is exactly the empty
fragment with only the collected description and nullable annotations
applied - or, for a truthy reusable name in context, the equally annotated
`$ref` referencing the registered (annotated-empty) component - and it is
the literal `{}` whenever no description, no nullable wrapper and no
truthy name were collected; `zodToOpenApiSchema` always returns a result
on such a schema. -/
theorem c5_unsupported_empty (s : Zod) (m : SchemaMeta) (tag : String)
    (ctx : Option Ctx) (b : Bool) (n : Nat)
    (hu : (unwrapZodType s).schema = Zod.zunsupported m tag)
    (hfuel : 2 ≤ n) :
    (∃ j oc2, convF n s ctx b = some (j, oc2) ∧
      (j = applyNullable (unwrapZodType s).isNullable
            (applyDescr (unwrapZodType s).description (Json.obj [])) ∨
       ∃ nm, truthyS (unwrapZodType s).openApiName = some nm ∧ b = false ∧
         j = applyNullable (unwrapZodType s).isNullable
               (applyDescr (unwrapZodType s).description
                 (Json.obj [("$ref",
                   Json.str (String.append "#/components/schemas/" nm))])))) ∧
    (zodToOpenApiSchema s ctx b).isSome = true ∧
    (truthyS (unwrapZodType s).description = none →
      (unwrapZodType s).isNullable = false →
      truthyS (unwrapZodType s).openApiName = none →
      convF n s ctx b = some (Json.obj [], ctx)) := by
  obtain ⟨k, rfl⟩ : ∃ k, n = k + 1 := ⟨n - 1, by omega⟩
  have hk : 1 ≤ k := by omega
  refine ⟨?_, ?_, ?_⟩
  · cases ht : truthyS (unwrapZodType s).openApiName with
    | none =>
      rw [convF_unsupported_plain k s m tag ctx b hu (Or.inl ht)]
      exact ⟨_, _, rfl, Or.inl rfl⟩
    | some nm =>
      cases ctx with
      | none =>
        rw [convF_unsupported_plain k s m tag none b hu (Or.inr (Or.inl rfl))]
        exact ⟨_, _, rfl, Or.inl rfl⟩
      | some c =>
        cases b with
        | true =>
          rw [convF_unsupported_plain k s m tag (some c) true hu (Or.inr (Or.inr rfl))]
          exact ⟨_, _, rfl, Or.inl rfl⟩
        | false =>
          rw [convF_unsupported_named k hk s m tag nm c hu ht]
          exact ⟨_, _, rfl, Or.inr ⟨nm, rfl, rfl, rfl⟩⟩
  · exact convF_isSome _ s ctx b (by cases b <;> simp <;> omega)
  · intro hd hnl hname
    rw [convF_unsupported_plain k s m tag ctx b hu (Or.inl hname), hnl,
      applyNullable_false, applyDescr_falsy _ _ hd]

/-- C5 witness: a bare ZodDate converts, without failing, to `{}`. -/
theorem c5_unsupported_empty_witness :
    (∃ j oc2, convF 2 (Zod.zunsupported {} "ZodDate") none false = some (j, oc2) ∧
      (j = applyNullable (unwrapZodType (Zod.zunsupported {} "ZodDate")).isNullable
            (applyDescr (unwrapZodType (Zod.zunsupported {} "ZodDate")).description
              (Json.obj [])) ∨
       ∃ nm, truthyS (unwrapZodType (Zod.zunsupported {} "ZodDate")).openApiName =
           some nm ∧ false = false ∧
         j = applyNullable (unwrapZodType (Zod.zunsupported {} "ZodDate")).isNullable
               (applyDescr (unwrapZodType (Zod.zunsupported {} "ZodDate")).description
                 (Json.obj [("$ref",
                   Json.str (String.append "#/components/schemas/" nm))])))) ∧
    (zodToOpenApiSchema (Zod.zunsupported {} "ZodDate") none false).isSome = true ∧
    (truthyS (unwrapZodType (Zod.zunsupported {} "ZodDate")).description = none →
      (unwrapZodType (Zod.zunsupported {} "ZodDate")).isNullable = false →
      truthyS (unwrapZodType (Zod.zunsupported {} "ZodDate")).openApiName = none →
      convF 2 (Zod.zunsupported {} "ZodDate") none false =
        some (Json.obj [], none)) :=
  c5_unsupported_empty (Zod.zunsupported {} "ZodDate") {} "ZodDate" none false 2
    rfl (by decide)

theorem listLookup_setKey_self (k : String) (v : Json) :
    ∀ l : Ctx, listLookup k (setKey k v l) = some v := by
  intro l
  induction l with
  | nil => simp [setKey, listLookup]
  | cons kv rest ih =>
    obtain ⟨k2, v2⟩ := kv
    by_cases h : k2 = k
    · subst h
      simp [setKey, listLookup]
    · simp [setKey, listLookup, h, ih]

theorem listLookup_setKey_ne (kset kq : String) (v : Json) (hne : kq ≠ kset) :
    ∀ l : Ctx, listLookup kq (setKey kset v l) = listLookup kq l := by
  intro l
  induction l with
  | nil =>
    simp [setKey, listLookup]
    exact fun h => hne h.symm
  | cons kv rest ih =>
    obtain ⟨k3, v3⟩ := kv
    by_cases h : k3 = kset
    · subst h
      have h2 : k3 ≠ kq := fun heq => hne heq.symm
      simp [setKey, listLookup, h2]
    · by_cases h3 : k3 = kq
      · subst h3
        simp [setKey, listLookup, h]
      · simp [setKey, listLookup, h, h3, ih]

theorem mem_keys_setKey (kset k2 : String) (v : Json) :
    ∀ l : Ctx, k2 ∈ (setKey kset v l).map Prod.fst ↔
      k2 = kset ∨ k2 ∈ l.map Prod.fst := by
  intro l
  induction l with
  | nil => simp [setKey]
  | cons kv rest ih =>
    obtain ⟨k3, v3⟩ := kv
    by_cases h : k3 = kset
    · subst h
      simp [setKey]
    · simp [setKey, h, ih]
      tauto

theorem keysNodup_setKey (kset : String) (v : Json) :
    ∀ l : Ctx, keysNodup l → keysNodup (setKey kset v l) := by
  intro l
  induction l with
  | nil => intro _; simp [setKey, keysNodup]
  | cons kv rest ih =>
    obtain ⟨k3, v3⟩ := kv
    intro h
    unfold keysNodup at h ⊢
    rw [List.map_cons, List.nodup_cons] at h
    by_cases hk : k3 = kset
    · subst hk
      have hset : setKey k3 v ((k3, v3) :: rest) = (k3, v) :: rest := by
        simp [setKey]
      rw [hset, List.map_cons, List.nodup_cons]
      exact h
    · have hset : setKey kset v ((k3, v3) :: rest) = (k3, v3) :: setKey kset v rest := by
        simp [setKey, hk]
      rw [hset, List.map_cons, List.nodup_cons]
      refine ⟨fun hmem => ?_, ih h.2⟩
      rcases (mem_keys_setKey kset k3 v rest).mp hmem with h1 | h2
      · exact hk h1
      · exact h.1 h2

theorem jsGet_jsSet_ne (j : Json) (kq kset : String) (v : Json) (hne : kq ≠ kset) :
    jsGet (jsSet j kset v) kq = jsGet j kq := by
  cases j <;> simp [jsSet, jsGet]
  exact listLookup_setKey_ne kset kq v hne _

theorem jsGet_applyMeta (nl : Bool) (d : Option String) (j : Json) (k : String)
    (h1 : k ≠ "description") (h2 : k ≠ "nullable") :
    jsGet (applyNullable nl (applyDescr d j)) k = jsGet j k := by
  have ha : jsGet (applyDescr d j) k = jsGet j k := by
    cases d with
    | none => rfl
    | some s =>
      by_cases hs : s = "" <;>
        simp [applyDescr, hs, jsGet_jsSet_ne j k "description" _ h1]
  cases nl <;> simp [applyNullable, ha, jsGet_jsSet_ne (applyDescr d j) k "nullable" _ h2]

theorem lookup_mem_keys (k : String) :
    ∀ c : Ctx, (listLookup k c).isSome = true → k ∈ c.map Prod.fst := by
  intro c
  induction c with
  | nil => intro h; simp [listLookup] at h
  | cons kv rest ih =>
    obtain ⟨k2, v2⟩ := kv
    intro h
    by_cases hk : k2 = k
    · simp [hk]
    · simp only [listLookup, if_neg hk] at h
      simp [ih h]

theorem countKey_eq_one (k : String) (c : Ctx) (hnd : keysNodup c)
    (h : (listLookup k c).isSome = true) : countKey k c = 1 :=
  List.count_eq_one_of_mem hnd (lookup_mem_keys k c h)

theorem ctxEvolves_refl (oc : Option Ctx) : CtxEvolves oc oc :=
  fun c hc => ⟨c, hc, fun _ _ h => h, id⟩

theorem ctxEvolves_trans {a b c : Option Ctx}
    (h1 : CtxEvolves a b) (h2 : CtxEvolves b c) : CtxEvolves a c := by
  intro ca hca
  obtain ⟨cb, hb, hp1, hn1⟩ := h1 ca hca
  obtain ⟨cc, hc, hp2, hn2⟩ := h2 cb hb
  exact ⟨cc, hc, fun k v hv => hp2 k v (hp1 k v hv), fun hn => hn2 (hn1 hn)⟩

theorem convFields_evolves (conv1 : Zod → Option Ctx → Option (Json × Option Ctx))
    (H : ∀ t oc j oc2, conv1 t oc = some (j, oc2) → CtxEvolves oc oc2) :
    ∀ (fs : List (String × Zod)) (oc : Option Ctx) props req oc2,
      convFields conv1 fs oc = some (props, req, oc2) → CtxEvolves oc oc2 := by
  intro fs
  induction fs with
  | nil =>
    intro oc props req oc2 h
    simp only [convFields, Option.some.injEq, Prod.mk.injEq] at h
    obtain ⟨-, -, h3⟩ := h
    rw [← h3]
    exact ctxEvolves_refl oc
  | cons kv rest ih =>
    intro oc props req oc2 h
    obtain ⟨k, v⟩ := kv
    simp only [convFields] at h
    split at h
    · exact absurd h (by simp)
    · rename_i pj oc1 hc
      split at h
      · exact absurd h (by simp)
      · rename_i props2 req2 oc3 hrest
        simp only [Option.some.injEq, Prod.mk.injEq] at h
        obtain ⟨-, -, h3⟩ := h
        exact h3 ▸ ctxEvolves_trans (H _ _ _ _ hc) (ih _ _ _ _ hrest)

theorem convOpts_evolves (conv1 : Zod → Option Ctx → Option (Json × Option Ctx))
    (H : ∀ t oc j oc2, conv1 t oc = some (j, oc2) → CtxEvolves oc oc2) :
    ∀ (os : List Zod) (oc : Option Ctx) js oc2,
      convOpts conv1 os oc = some (js, oc2) → CtxEvolves oc oc2 := by
  intro os
  induction os with
  | nil =>
    intro oc js oc2 h
    simp only [convOpts, Option.some.injEq, Prod.mk.injEq] at h
    obtain ⟨-, h3⟩ := h
    rw [← h3]
    exact ctxEvolves_refl oc
  | cons o rest ih =>
    intro oc js oc2 h
    simp only [convOpts] at h
    split at h
    · exact absurd h (by simp)
    · rename_i j1 oc1 hc
      split at h
      · exact absurd h (by simp)
      · rename_i js2 oc3 hrest
        simp only [Option.some.injEq, Prod.mk.injEq] at h
        obtain ⟨-, h3⟩ := h
        exact h3 ▸ ctxEvolves_trans (H _ _ _ _ hc) (ih _ _ _ hrest)

theorem convSwitch_evolves (recur : Zod → Option Ctx → Option (Json × Option Ctx))
    (H : ∀ t oc j oc2, recur t oc = some (j, oc2) → CtxEvolves oc oc2)
    (u : Unwrapped) (oc : Option Ctx) (j : Json) (oc2 : Option Ctx)
    (h : convSwitch recur u oc = some (j, oc2)) : CtxEvolves oc oc2 := by
  cases hus : u.schema with
  | zarray m0 elem =>
    simp only [convSwitch, hus] at h
    split at h
    · exact absurd h (by simp)
    · rename_i ij oc1 hrec
      simp only [Option.some.injEq, Prod.mk.injEq] at h
      obtain ⟨-, h3⟩ := h
      exact h3 ▸ H _ _ _ _ hrec
  | zobject m0 fields =>
    simp only [convSwitch, hus] at h
    split at h
    · exact absurd h (by simp)
    · rename_i props req oc1 hcf
      simp only [Option.some.injEq, Prod.mk.injEq] at h
      obtain ⟨-, h3⟩ := h
      exact h3 ▸ convFields_evolves recur H fields oc props req oc1 hcf
  | zunion m0 options =>
    simp only [convSwitch, hus] at h
    split at h
    · exact absurd h (by simp)
    · rename_i js oc1 hco
      simp only [Option.some.injEq, Prod.mk.injEq] at h
      obtain ⟨-, h3⟩ := h
      exact h3 ▸ convOpts_evolves recur H options oc js oc1 hco
  | zstr m0 =>
    simp only [convSwitch, hus, Option.some.injEq, Prod.mk.injEq] at h
    exact h.2 ▸ ctxEvolves_refl oc
  | znum m0 =>
    simp only [convSwitch, hus, Option.some.injEq, Prod.mk.injEq] at h
    exact h.2 ▸ ctxEvolves_refl oc
  | zbool m0 =>
    simp only [convSwitch, hus, Option.some.injEq, Prod.mk.injEq] at h
    exact h.2 ▸ ctxEvolves_refl oc
  | zliteral m0 v =>
    simp only [convSwitch, hus, Option.some.injEq, Prod.mk.injEq] at h
    exact h.2 ▸ ctxEvolves_refl oc
  | zenum m0 vs =>
    simp only [convSwitch, hus, Option.some.injEq, Prod.mk.injEq] at h
    exact h.2 ▸ ctxEvolves_refl oc
  | znativeEnum m0 vs =>
    simp only [convSwitch, hus, Option.some.injEq, Prod.mk.injEq] at h
    exact h.2 ▸ ctxEvolves_refl oc
  | zoptional m0 i =>
    simp only [convSwitch, hus, Option.some.injEq, Prod.mk.injEq] at h
    exact h.2 ▸ ctxEvolves_refl oc
  | znullable m0 i =>
    simp only [convSwitch, hus, Option.some.injEq, Prod.mk.injEq] at h
    exact h.2 ▸ ctxEvolves_refl oc
  | zdefault m0 i dv =>
    simp only [convSwitch, hus, Option.some.injEq, Prod.mk.injEq] at h
    exact h.2 ▸ ctxEvolves_refl oc
  | zeffects m0 i =>
    simp only [convSwitch, hus, Option.some.injEq, Prod.mk.injEq] at h
    exact h.2 ▸ ctxEvolves_refl oc
  | zunsupported m0 t =>
    simp only [convSwitch, hus, Option.some.injEq, Prod.mk.injEq] at h
    exact h.2 ▸ ctxEvolves_refl oc

theorem convF_evolves : ∀ (n : Nat) (s : Zod) (oc : Option Ctx) (b : Bool)
    (j : Json) (oc2 : Option Ctx),
    convF n s oc b = some (j, oc2) → CtxEvolves oc oc2 := by
  intro n
  induction n with
  | zero =>
    intro s oc b j oc2 h
    simp [convF] at h
  | succ m ih =>
    intro s oc b j oc2 h
    cases oc with
    | none => exact fun c hc => absurd hc (by simp)
    | some c =>
      cases ht : truthyS (unwrapZodType s).openApiName with
      | none =>
        cases b <;>
          · simp only [convF, ht] at h
            exact convSwitch_evolves _
              (fun t oc3 j2 oc4 hc => ih t oc3 false j2 oc4 hc) _ _ _ _ h
      | some nm =>
        cases b with
        | true =>
          simp only [convF, ht] at h
          exact convSwitch_evolves _
            (fun t oc3 j2 oc4 hc => ih t oc3 false j2 oc4 hc) _ _ _ _ h
        | false =>
          simp only [convF, ht] at h
          by_cases hlk : (listLookup nm c).isSome = true
          · rw [if_pos hlk] at h
            simp only [Option.some.injEq, Prod.mk.injEq] at h
            exact h.2 ▸ ctxEvolves_refl (some c)
          · rw [if_neg hlk] at h
            cases hrec : convF m s (some c) true with
            | none => rw [hrec] at h; simp at h
            | some pr =>
              obtain ⟨cj, oc1⟩ := pr
              rw [hrec] at h
              obtain ⟨c1, hoc1, hp1, hn1⟩ := ih s (some c) true cj oc1 hrec c rfl
              subst hoc1
              simp only [Option.some.injEq, Prod.mk.injEq] at h
              obtain ⟨-, h2⟩ := h
              intro c3 hc3
              obtain rfl : c = c3 := by injection hc3
              have hnone : listLookup nm c = none :=
                Option.not_isSome_iff_eq_none.mp (by simpa using hlk)
              refine ⟨setKey nm cj c1, h2.symm, fun k v hv => ?_, fun hn => ?_⟩
              · have hkne : k ≠ nm := fun heq => by
                  rw [heq, hnone] at hv
                  exact Option.noConfusion hv
                rw [listLookup_setKey_ne nm k cj hkne c1]
                exact hp1 k v hv
              · exact keysNodup_setKey nm cj c1 (hn1 hn)

theorem convF_registers : ∀ (n : Nat) (s : Zod) (c : Ctx) (j : Json)
    (oc2 : Option Ctx) (nm : String),
    convF n s (some c) false = some (j, oc2) →
    truthyS (unwrapZodType s).openApiName = some nm →
    ∃ c2, oc2 = some c2 ∧ (listLookup nm c2).isSome = true ∧
      jsGet j "$ref" = some (Json.str (String.append "#/components/schemas/" nm)) := by
  intro n s c j oc2 nm h hnm
  cases n with
  | zero => simp [convF] at h
  | succ m =>
    simp only [convF, hnm] at h
    have href : ∀ u2 : Unwrapped,
        jsGet (applyNullable u2.isNullable (applyDescr u2.description
          (Json.obj [("$ref", Json.str (String.append "#/components/schemas/" nm))])))
          "$ref" =
        some (Json.str (String.append "#/components/schemas/" nm)) := by
      intro u2
      rw [jsGet_applyMeta u2.isNullable u2.description _ "$ref" (by decide) (by decide)]
      simp [jsGet, listLookup]
    by_cases hlk : (listLookup nm c).isSome = true
    · rw [if_pos hlk] at h
      simp only [Option.some.injEq, Prod.mk.injEq] at h
      obtain ⟨h1, h2⟩ := h
      exact ⟨c, h2.symm, hlk, h1 ▸ href (unwrapZodType s)⟩
    · rw [if_neg hlk] at h
      cases hrec : convF m s (some c) true with
      | none => rw [hrec] at h; simp at h
      | some pr =>
        obtain ⟨cj, oc1⟩ := pr
        rw [hrec] at h
        cases oc1 with
        | none =>
          simp only [Option.some.injEq, Prod.mk.injEq] at h
          obtain ⟨h1, h2⟩ := h
          exact ⟨setKey nm cj c, h2.symm,
            by rw [listLookup_setKey_self]; rfl, h1 ▸ href (unwrapZodType s)⟩
        | some c1 =>
          simp only [Option.some.injEq, Prod.mk.injEq] at h
          obtain ⟨h1, h2⟩ := h
          exact ⟨setKey nm cj c1, h2.symm,
            by rw [listLookup_setKey_self]; rfl, h1 ▸ href (unwrapZodType s)⟩

/-- C4 (amended): once a name is present in the component table at the
start of a conversion, every later conversion preserves that entry
unchanged (first completed registration wins across routes) and preserves
key distinctness, so a named schema occupies exactly one entry however
many routes reference it; converting a named schema guarantees the entry
exists, counts exactly once in a distinct-key table, and the use site
emits a `$ref` to that entry. (The unamended "the second does not
overwrite" is refuted by the nesting counterexample.) -/
theorem c4_named_components (n : Nat) (s : Zod) (c : Ctx) (b : Bool)
    (j : Json) (oc2 : Option Ctx)
    (h : convF n s (some c) b = some (j, oc2)) :
    (∃ c2, oc2 = some c2 ∧
      (∀ k v, listLookup k c = some v → listLookup k c2 = some v) ∧
      (keysNodup c → keysNodup c2)) ∧
    (∀ nm, truthyS (unwrapZodType s).openApiName = some nm → b = false →
      ∃ c2, oc2 = some c2 ∧ (listLookup nm c2).isSome = true ∧
        (keysNodup c → countKey nm c2 = 1) ∧
        jsGet j "$ref" = some (Json.str (String.append "#/components/schemas/" nm))) := by
  constructor
  · exact convF_evolves n s (some c) b j oc2 h c rfl
  · intro nm hnm hb
    subst hb
    obtain ⟨c2, hc2, hlk, href⟩ := convF_registers n s c j oc2 nm h hnm
    obtain ⟨c3, hc3, -, hnd⟩ := convF_evolves n s (some c) false j oc2 h c rfl
    obtain rfl : c2 = c3 := by rw [hc2] at hc3; injection hc3
    exact ⟨c2, hc2, hlk, fun hn => countKey_eq_one nm c2 (hnd hn) hlk, href⟩

/-- C4 counterexample to "the second does not overwrite": a named schema
nested inside a schema carrying the same name. Converting the leaf alone
registers `{type: string}` under N; during the outer object's conversion
the leaf is converted first and registers that same entry (visible in the
asComponent pass), but the outer conversion's final assignment then
overwrites N with the object schema. -/
theorem c4_first_wins_counterexample :
    (zodToOpenApiSchema (withSchemaName (Zod.zstr {}) "N") (some []) false =
      some (Json.obj [("$ref", Json.str "#/components/schemas/N")],
        some [("N", Json.obj [("type", Json.str "string")])])) ∧
    (convF 9 (withSchemaName
        (Zod.zobject {} [("f", withSchemaName (Zod.zstr {}) "N")]) "N")
        (some []) true =
      some (Json.obj [("type", Json.str "object"),
        ("properties", Json.obj [("f",
          Json.obj [("$ref", Json.str "#/components/schemas/N")])]),
        ("required", Json.arr [Json.str "f"])],
        some [("N", Json.obj [("type", Json.str "string")])])) ∧
    (zodToOpenApiSchema (withSchemaName
        (Zod.zobject {} [("f", withSchemaName (Zod.zstr {}) "N")]) "N")
        (some []) false =
      some (Json.obj [("$ref", Json.str "#/components/schemas/N")],
        some [("N", Json.obj [("type", Json.str "object"),
          ("properties", Json.obj [("f",
            Json.obj [("$ref", Json.str "#/components/schemas/N")])]),
          ("required", Json.arr [Json.str "f"])])])) ∧
    Json.obj [("type", Json.str "object"),
        ("properties", Json.obj [("f",
          Json.obj [("$ref", Json.str "#/components/schemas/N")])]),
        ("required", Json.arr [Json.str "f"])] ≠
      Json.obj [("type", Json.str "string")] :=
  ⟨rfl, rfl, rfl, by simp⟩

/-- C4 witness: converting a named string schema into an empty table
registers it once and emits the `$ref`. -/
theorem c4_named_components_witness :
    (∃ c2, (some [("N", Json.obj [("type", Json.str "string")])] : Option Ctx) =
        some c2 ∧
      (∀ k v, listLookup k [] = some v → listLookup k c2 = some v) ∧
      (keysNodup [] → keysNodup c2)) ∧
    (∀ nm, truthyS (unwrapZodType (withSchemaName (Zod.zstr {}) "N")).openApiName =
        some nm → false = false →
      ∃ c2, (some [("N", Json.obj [("type", Json.str "string")])] : Option Ctx) =
          some c2 ∧
        (listLookup nm c2).isSome = true ∧
        (keysNodup [] → countKey nm c2 = 1) ∧
        jsGet (Json.obj [("$ref", Json.str "#/components/schemas/N")]) "$ref" =
          some (Json.str (String.append "#/components/schemas/" nm))) :=
  c4_named_components 4 (withSchemaName (Zod.zstr {}) "N") [] false
    (Json.obj [("$ref", Json.str "#/components/schemas/N")])
    (some [("N", Json.obj [("type", Json.str "string")])]) rfl

theorem specSegment_cons (c : Char) (cs : List Char) (h : ¬(c = ':')) :
    specSegment (c :: cs) = c :: specSegment cs := by
  simp only [specSegment, List.takeWhile_cons, List.dropWhile_cons]
  rw [if_pos (by simp [h]), if_pos (by simp [h])]
  cases hd : cs.dropWhile (fun x => decide ¬(x = ':')) with
  | nil => simp
  | cons x b =>
    by_cases hb : b.isEmpty <;> simp [hb]

theorem rewriteGo_true_other (c : Char) (t : List Char) (hc : ¬(c = '/')) :
    rewriteGo true (c :: t) = c :: rewriteGo true t := by
  simp only [rewriteGo]
  rw [if_neg hc]

theorem rewriteGo_true_slash (t : List Char) :
    rewriteGo true ('/' :: t) = rbrace :: '/' :: rewriteGo false t := by
  simp [rewriteGo]

theorem rewriteGo_false_other (c : Char) (t : List Char) (hc : ¬(c = ':')) :
    rewriteGo false (c :: t) = c :: rewriteGo false t := by
  simp only [rewriteGo]
  rw [if_neg hc]

theorem rewriteGo_false_param (d : Char) (t : List Char) (hd : ¬(d = '/')) :
    rewriteGo false (':' :: d :: t) = lbrace :: rewriteGo true (d :: t) := by
  simp only [rewriteGo]
  simp [hd]

theorem rewriteGo_false_colon_slash (t : List Char) :
    rewriteGo false (':' :: '/' :: t) = ':' :: rewriteGo false ('/' :: t) := by
  simp only [rewriteGo]
  simp

theorem rewriteGo_true_append (xs more : List Char) (hx : ('/' : Char) ∉ xs) :
    rewriteGo true (xs ++ more) = xs ++ rewriteGo true more := by
  induction xs with
  | nil => rfl
  | cons c rest ih =>
    have hc : ¬(c = '/') := fun heq => hx (heq ▸ List.mem_cons_self c rest)
    have hrest : ('/' : Char) ∉ rest := fun hm => hx (List.mem_cons_of_mem c hm)
    rw [List.cons_append, rewriteGo_true_other c _ hc, ih hrest, List.cons_append]

theorem rewriteGo_segment (seg more : List Char) (h : ('/' : Char) ∉ seg)
    (hm : more = [] ∨ ∃ r, more = '/' :: r) :
    rewriteGo false (seg ++ more) = specSegment seg ++ rewriteGo false more := by
  induction seg with
  | nil => simp [specSegment]
  | cons c cs ih =>
    have hc : ¬(c = '/') := fun heq => h (heq ▸ List.mem_cons_self c cs)
    have hcs : ('/' : Char) ∉ cs := fun hmem => h (List.mem_cons_of_mem c hmem)
    by_cases hcol : c = ':'
    · subst hcol
      cases cs with
      | nil =>
        rcases hm with rfl | ⟨r, rfl⟩
        · show rewriteGo false [':'] = specSegment [':'] ++ rewriteGo false []
          simp [rewriteGo, specSegment]
        · show rewriteGo false (':' :: '/' :: r) =
            specSegment [':'] ++ rewriteGo false ('/' :: r)
          rw [rewriteGo_false_colon_slash r]
          simp [specSegment]
      | cons d cs2 =>
        have hd : ¬(d = '/') := fun heq =>
          hcs (heq ▸ List.mem_cons_self d cs2)
        have hspec : specSegment (':' :: d :: cs2) =
            lbrace :: (d :: cs2 ++ [rbrace]) := by
          simp [specSegment]
        show rewriteGo false (':' :: d :: (cs2 ++ more)) =
          specSegment (':' :: d :: cs2) ++ rewriteGo false more
        rw [rewriteGo_false_param d _ hd,
          show (d :: (cs2 ++ more) : List Char) = (d :: cs2) ++ more from rfl,
          rewriteGo_true_append (d :: cs2) more hcs, hspec]
        rcases hm with rfl | ⟨r, rfl⟩
        · simp [rewriteGo]
        · rw [rewriteGo_true_slash r, rewriteGo_false_other '/' r (by decide)]
          simp
    · rw [List.cons_append, rewriteGo_false_other c _ hcol, ih hcs,
        specSegment_cons c cs hcol, List.cons_append]

theorem rewriteGo_segments : ∀ (segs : List (List Char)),
    (∀ seg ∈ segs, ('/' : Char) ∉ seg) →
    rewriteGo false (joinSlash segs) = joinSlash (segs.map specSegment) := by
  intro segs
  induction segs with
  | nil => intro _; rfl
  | cons s rest ih =>
    intro H
    cases rest with
    | nil =>
      have h1 := rewriteGo_segment s [] (H s (List.mem_cons_self s []))
        (Or.inl rfl)
      simpa [joinSlash, rewriteGo] using h1
    | cons s2 rest2 =>
      have h1 := rewriteGo_segment s ('/' :: joinSlash (s2 :: rest2))
        (H s (List.mem_cons_self s _)) (Or.inr ⟨_, rfl⟩)
      have h2 : rewriteGo false ('/' :: joinSlash (s2 :: rest2)) =
          '/' :: rewriteGo false (joinSlash (s2 :: rest2)) :=
        rewriteGo_false_other '/' _ (by decide)
      have h3 := ih (fun seg hmem => H seg (List.mem_cons_of_mem _ hmem))
      show rewriteGo false (s ++ '/' :: joinSlash (s2 :: rest2)) =
        joinSlash ((s :: s2 :: rest2).map specSegment)
      rw [h1, h2, h3]
      simp [joinSlash]

theorem buildPaths_preserves_key (bp : Option String) :
    ∀ (routes : List RouteDef) (paths : List (String × Json)) (c : Ctx) (k : String),
      (listLookup k paths).isSome = true →
      (listLookup k (buildPaths bp routes paths c).1).isSome = true := by
  intro routes
  induction routes with
  | nil =>
    intro paths c k h
    simpa [buildPaths] using h
  | cons rt rest ih =>
    intro paths c k h
    simp only [buildPaths]
    apply ih
    by_cases hk : k = expressPathToOpenApiPath (fullExpressPath bp rt.path)
    · rw [hk, listLookup_setKey_self]
      rfl
    · rw [listLookup_setKey_ne _ _ _ hk]
      exact h

theorem buildPaths_mem (bp : Option String) :
    ∀ (routes : List RouteDef) (paths : List (String × Json)) (c : Ctx)
      (rt : RouteDef), rt ∈ routes →
      (listLookup (expressPathToOpenApiPath (fullExpressPath bp rt.path))
        (buildPaths bp routes paths c).1).isSome = true := by
  intro routes
  induction routes with
  | nil => intro paths c rt h; cases h
  | cons rt2 rest ih =>
    intro paths c rt h
    rcases List.mem_cons.mp h with rfl | hmem
    · simp only [buildPaths]
      apply buildPaths_preserves_key
      rw [listLookup_setKey_self]
      rfl
    · simp only [buildPaths]
      exact ih _ _ rt hmem

/-- C7: the path key of every registered route in the generated document is
the route's path (prefixed by basePath when given) rewritten from the
Express parameter syntax to the OpenAPI brace syntax: on a path split into
slash-separated segments, every segment containing a colon followed by at
least one character has that parameter part rewritten to the brace form,
and all other characters are unchanged. -/
theorem c7_path_rewriting :
    (∀ segs : List (List Char), (∀ seg ∈ segs, ('/' : Char) ∉ seg) →
      expressPathToOpenApiPath (String.mk (joinSlash segs)) =
        String.mk (joinSlash (segs.map specSegment))) ∧
    (∀ (tr : TypedRouter) (options : OpenApiOptions), ∀ rt ∈ tr.routes,
      ∃ item, listLookup (expressPathToOpenApiPath
          (fullExpressPath options.basePath rt.path))
        (buildOpenApi tr options).paths = some item) := by
  constructor
  · intro segs H
    show String.mk (rewriteGo false (String.mk (joinSlash segs)).data) = _
    rw [show (String.mk (joinSlash segs)).data = joinSlash segs from rfl,
      rewriteGo_segments segs H]
  · intro tr options rt hmem
    exact Option.isSome_iff_exists.mp
      (buildPaths_mem options.basePath tr.routes [] [] rt hmem)

/-- C7 witness: the route `/users/:id` (segments `users` and `:id`) and a
one-route router. -/
theorem c7_path_rewriting_witness :
    (expressPathToOpenApiPath (String.mk (joinSlash
        [[], ['u', 's', 'e', 'r', 's'], [':', 'i', 'd']])) =
      String.mk (joinSlash ([[], ['u', 's', 'e', 'r', 's'], [':', 'i', 'd']].map
        specSegment))) ∧
    (∃ item, listLookup (expressPathToOpenApiPath (fullExpressPath none "/users/:id"))
      (buildOpenApi ⟨[⟨HttpMethod.get, "/users/:id", none, [(200, Zod.zstr {})], none,
        fun _ _ r => (r, Except.ok Json.null)⟩]⟩
        { title := "t", version := "1" }).paths = some item) :=
  ⟨c7_path_rewriting.1 [[], ['u', 's', 'e', 'r', 's'], [':', 'i', 'd']] (by decide),
   c7_path_rewriting.2 ⟨[⟨HttpMethod.get, "/users/:id", none, [(200, Zod.zstr {})], none,
      fun _ _ r => (r, Except.ok Json.null)⟩]⟩
     { title := "t", version := "1" }
     ⟨HttpMethod.get, "/users/:id", none, [(200, Zod.zstr {})], none,
      fun _ _ r => (r, Except.ok Json.null)⟩ (List.mem_cons_self _ _)⟩

/-- C6 witness: the general field-loop characterisation applied to the
example fields. -/
theorem c6_object_conversion_witness :
    ([("id", Json.obj [("type", Json.str "string")]),
      ("age", Json.obj [("type", Json.str "number")])].map Prod.fst =
        [("id", Zod.zstr {}), ("age", Zod.zoptional {} (Zod.znum {}))].map Prod.fst) ∧
    (["id"] = ([("id", Zod.zstr {}), ("age", Zod.zoptional {} (Zod.znum {}))].filter
      (fun kv => !(unwrapZodType kv.2).isOptional)).map Prod.fst) :=
  c6_object_conversion.2 (fun t c => convF 4 t c false)
    [("id", Zod.zstr {}), ("age", Zod.zoptional {} (Zod.znum {}))] none
    [("id", Json.obj [("type", Json.str "string")]),
     ("age", Json.obj [("type", Json.str "number")])] ["id"] none rfl
